import Mathlib

/-!
Verification development for the Azul game engine (`src/azul`): a shallow
embedding of the data model (`models/tile.py`, `models/source.py`,
`models/player.py`), the pure game logic (`game_logic.py`), the game state
machine (`game.py`), the CPU strategies (`cpu.py`), and the Elo / Glicko-2
rating updates (`rating_systems/elo.py`, `rating_systems/glicko2.py`).

Python `Tile` objects carry only a `color` attribute and compare by it, so a
tile is embedded as its color.  Mutable state is embedded as explicit record
updates; `random.shuffle` is embedded as a nondeterministically chosen
permutation carried by the reachability relation. Python lists popped from the
end are embedded with `List.getLast?` / `List.dropLast`.
-/

set_option linter.unusedVariables false
set_option linter.unnecessarySeqFocus false

namespace Azul

/-- Tile colors: `R`, `B`, `Y`, `K`, `W`, plus the first-player marker `"1"`
(constructor `one`). -/
inductive TColor where
  | R | B | Y | K | W | one
deriving DecidableEq

/-- Game modes: `"pattern"` (fixed Latin-square wall) or `"free"`. Any mode
string other than `"pattern"` takes the `else` branches in the source, so two
values suffice. -/
inductive Mode where
  | pattern | free
deriving DecidableEq

/-- A player board (`models/player.py`): pattern lines, 5x5 wall of optional
colors, floor line and integer score. -/
structure PlayerSt where
  name : String
  patternLines : List (List TColor)
  wall : List (List (Option TColor))
  floorLine : List TColor
  score : Int
deriving DecidableEq

/-- `Player.__post_init__`: five empty pattern lines, a 5x5 wall of `None`,
empty floor line, score 0. -/
def emptyPlayer : PlayerSt :=
  { name := ""
    patternLines := List.replicate 5 []
    wall := List.replicate 5 (List.replicate 5 none)
    floorLine := []
    score := 0 }

/-- The full game state of `AzulGame` (fields that hold tiles or indices;
`verbose`, `display` and the AI handles are I/O plumbing). The `wall_pattern`
field is determined by `mode` (the fixed Latin square, or all-`None`), so it
is kept as the constant `WALL_PATTERN` below instead of a field. -/
structure Game where
  players : List PlayerSt
  factories : List (List TColor)
  center : List TColor
  bag : List TColor
  discard : List TColor
  roundNum : Nat
  activePlayer : Nat
  firstPlayerToken : Nat
  mode : Mode
deriving DecidableEq

/-- A tile source as chosen in a move: one of the factories (by index) or the
center.  Factories are named `"Factory i"` and the center `"Center"`, so
Python dataclass equality between a factory and the center is always false
and source identity reduces to this tag. -/
inductive SourceSel where
  | factory (i : Nat)
  | center
deriving DecidableEq

/-- A move as returned by the strategies: source, color, line index
(`-1` denotes the floor line, matching the Python convention). -/
abbrev Move : Type := SourceSel × TColor × Int

/-- `self.colors = ["R", "B", "Y", "K", "W"]`. -/
def gameColors : List TColor := [.R, .B, .Y, .K, .W]

/-- The fixed pattern-mode wall (`game.py`, `AzulGame.__init__`). -/
def WALL_PATTERN : List (List TColor) :=
  [[.B, .Y, .R, .K, .W],
   [.W, .B, .Y, .R, .K],
   [.K, .W, .B, .Y, .R],
   [.R, .K, .W, .B, .Y],
   [.Y, .R, .K, .W, .B]]

/-- The 100 tiles put in the bag by `setup_game`:
`[Tile(color) for color in self.colors for _ in range(20)]`. -/
def startTiles : List TColor := gameColors.flatMap (fun c => List.replicate 20 c)

/-- `AzulGame.__init__(num_players, mode)`: players `"Player 1"..`, `2n+1`
empty factories, center holding the first-player marker, empty bag/discard,
round 1, active player and token holder 0. -/
def initGame (numPlayers : Nat) (mode : Mode) : Game :=
  { players := (List.range numPlayers).map
      (fun i => { emptyPlayer with name := "Player " ++ toString (i + 1) })
    factories := List.replicate (numPlayers * 2 + 1) []
    center := [.one]
    bag := []
    discard := []
    roundNum := 1
    activePlayer := 0
    firstPlayerToken := 0
    mode := mode }

/-- Python slice `l[:n]` for an `int` index `n` (negative indices count from
the end, clamped at 0). -/
def pyTake (n : Int) (l : List α) : List α :=
  if 0 ≤ n then l.take n.toNat else l.take (l.length - (-n).toNat)

/-- Python slice `l[n:]` for an `int` index `n`. -/
def pyDrop (n : Int) (l : List α) : List α :=
  if 0 ≤ n then l.drop n.toNat else l.drop (l.length - (-n).toNat)

/-- First-occurrence deduplication with an accumulator of seen elements;
embeds iteration over a Python `set`/`dict` built from a list (the CPython
iteration order of a small string set is unspecified; first-occurrence order
is the canonical choice used throughout, and no modelled claim depends on the
order). -/
def uniqueFirstAux : List TColor → List TColor → List TColor
  | [], _ => []
  | a :: l, seen =>
      if a ∈ seen then uniqueFirstAux l seen
      else a :: uniqueFirstAux l (a :: seen)

/-- First-occurrence deduplication. -/
def uniqueFirst (l : List TColor) : List TColor := uniqueFirstAux l []

/-- `n < m` where `m : Option Nat` stands for `float("inf")` when `none`. -/
def ltOptNat (n : Nat) : Option Nat → Bool
  | none => true
  | some m => n < m

/-- `n <= m` with `none` as `float("inf")`. -/
def leOptNat (n : Nat) : Option Nat → Bool
  | none => true
  | some m => n ≤ m

/-- `b < s` where `b : Option Int` stands for `float("-inf")` when `none`. -/
def gtOptInt (s : Int) : Option Int → Bool
  | none => true
  | some b => b < s

/-! ## GameLogic (`game_logic.py`) -/

/-- `GameLogic.FLOOR_PENALTIES = [1, 1, 2, 2, 2, 3, 3]`. -/
def FLOOR_PENALTIES : List Nat := [1, 1, 2, 2, 2, 3, 3]

/-- `GameLogic.calculate_floor_penalty`: `sum(FLOOR_PENALTIES[:num_tiles])`. -/
def calculate_floor_penalty (numTiles : Nat) : Nat :=
  (FLOOR_PENALTIES.take numTiles).sum

/-- The `while left > 0 and player.wall[row][left-1]:` loop of `score_tile`:
number of consecutively occupied cells at columns `col-1, col-2, …`. -/
def countLeft (row : List (Option TColor)) : Nat → Nat
  | 0 => 0
  | j + 1 =>
      match row.getD j none with
      | some _ => countLeft row j + 1
      | none => 0

/-- The `while right < 4 and player.wall[row][right+1]:` loop, with fuel
`4 - col` (exactly the number of iterations the Python loop can make). -/
def countRightAux (row : List (Option TColor)) : Nat → Nat → Nat
  | 0, _ => 0
  | fuel + 1, col =>
      if col < 4 then
        match row.getD (col + 1) none with
        | some _ => countRightAux row fuel (col + 1) + 1
        | none => 0
      else 0

/-- Occupied run length to the right of `col` (indices `col+1 … 4`). -/
def countRight (row : List (Option TColor)) (col : Nat) : Nat :=
  countRightAux row (4 - col) col

/-- The `while up > 0 and player.wall[up-1][col]:` loop. -/
def countUp (wall : List (List (Option TColor))) (col : Nat) : Nat → Nat
  | 0 => 0
  | r + 1 =>
      match (wall.getD r []).getD col none with
      | some _ => countUp wall col r + 1
      | none => 0

/-- The `while down < 4 and player.wall[down+1][col]:` loop, with fuel. -/
def countDownAux (wall : List (List (Option TColor))) (col : Nat) :
    Nat → Nat → Nat
  | 0, _ => 0
  | fuel + 1, r =>
      if r < 4 then
        match (wall.getD (r + 1) []).getD col none with
        | some _ => countDownAux wall col fuel (r + 1) + 1
        | none => 0
      else 0

/-- Occupied run length below `row` (indices `row+1 … 4`). -/
def countDown (wall : List (List (Option TColor))) (col row : Nat) : Nat :=
  countDownAux wall col (4 - row) row

/-- `GameLogic.score_tile(player, row, col)`: 1 plus one point per
consecutively occupied neighbour in each of the four directions; if neither a
horizontal nor a vertical connection exists the score is returned as exactly
1 (which coincides with the accumulated value). -/
def score_tile (player : PlayerSt) (row col : Nat) : Nat :=
  let wrow := player.wall.getD row []
  let h := countLeft wrow col + countRight wrow col
  let v := countUp player.wall col row + countDown player.wall col row
  if h = 0 && v = 0 then 1 else 1 + h + v

/-- `GameLogic.calculate_end_game_bonus(player)`:
`(complete_rows * 2, complete_cols * 7, complete_colors * 10)`. -/
def calculate_end_game_bonus (player : PlayerSt) : Nat × Nat × Nat :=
  let completeRows :=
    (player.wall.filter (fun row => row.all (fun cell => cell.isSome))).length
  let completeCols :=
    ((List.range 5).filter
      (fun col => player.wall.all (fun row => (row.getD col none).isSome))).length
  let completeColors :=
    (gameColors.filter (fun color =>
      ((player.wall.map
        (fun row => (row.filter (fun cell => cell == some color)).length)).sum
        = 5 : Bool))).length
  (completeRows * 2, completeCols * 7, completeColors * 10)

/-- `GameLogic.get_valid_lines(player, color, mode, wall_pattern)`: the
indices `i` whose pattern line is empty or partially filled with `color`,
and whose wall row does not already hold `color`; in free mode the source
additionally re-checks `all(player.wall[i][j] != color for j in range(5))`
on the same row.  The `wall_pattern` argument is unused by the source body
and therefore omitted. -/
def get_valid_lines (player : PlayerSt) (color : TColor) (mode : Mode) :
    List Nat :=
  (List.range player.patternLines.length).filter (fun i =>
    let line := player.patternLines.getD i []
    let lineOK : Bool :=
      match line with
      | [] => true
      | t :: _ => decide (t = color) && decide (line.length < i + 1)
    lineOK &&
      match mode with
      | .pattern => !decide (some color ∈ player.wall.getD i [])
      | .free =>
          !decide (some color ∈ player.wall.getD i []) &&
            (List.range 5).all
              (fun j => !decide ((player.wall.getD i []).getD j none = some color)))

/-! ## AzulGame state machine (`game.py`) -/

/-- Tiles currently held by a source (out-of-range factory indices give `[]`;
the real program never produces them). -/
def source_tiles (g : Game) : SourceSel → List TColor
  | .factory i => g.factories.getD i []
  | .center => g.center

/-- `AzulGame.is_center_valid_choice`: the center holds at least one tile
other than the first-player marker. -/
def is_center_valid_choice (g : Game) : Bool :=
  0 < (g.center.filter (fun t => !decide (t = .one))).length

/-- Replace player `i` by `f` applied to it (in-place mutation of
`self.players[i]` through the aliased `player` argument). -/
def modifyPlayer (g : Game) (i : Nat) (f : PlayerSt → PlayerSt) : Game :=
  { g with players := g.players.set i (f (g.players.getD i emptyPlayer)) }

/-- The `# Take tiles` / `# Move remaining tiles to center or update center`
paragraph of `execute_move`: a chosen factory is cleared with its other
colors displaced to the center; choosing from the center strips the chosen
color from it. -/
def take_phase (g : Game) (src : SourceSel) (color : TColor) : Game :=
  match src with
  | .factory i =>
      { g with
          center := g.center ++
            (g.factories.getD i []).filter (fun t => !decide (t = color))
          factories := g.factories.set i [] }
  | .center =>
      { g with center := g.center.filter (fun t => !decide (t = color)) }

/-- The `# Handle first player token` paragraph of `execute_move`: when the
source is the center and the marker is still there, remove it, make the
acting player the first-player-token holder, and append the marker to their
floor line. -/
def marker_phase (g : Game) (pIdx : Nat) (src : SourceSel) : Game :=
  match src with
  | .factory _ => g
  | .center =>
      if .one ∈ g.center then
        { (modifyPlayer g pIdx
            (fun p => { p with floorLine := p.floorLine ++ [.one] })) with
            center := g.center.filter (fun t => !decide (t = .one))
            firstPlayerToken := pIdx }
      else g

/-- The `# Place tiles` paragraph of `execute_move`: fill the chosen pattern
line up to `spaces = line + 1 - len(...)` with the taken tiles and overflow
to the floor; `line == -1` routes everything to the floor.  (`line` is a
valid index `0..4` in every modelled call; Python's negative-index aliasing
for values below `-1` is not modelled.) -/
def place_phase (g : Game) (pIdx : Nat) (line : Int) (taken : List TColor) :
    Game :=
  if line = -1 then
    modifyPlayer g pIdx (fun p => { p with floorLine := p.floorLine ++ taken })
  else
    let i := line.toNat
    modifyPlayer g pIdx (fun p =>
      let spaces : Int := (i : Int) + 1 - (p.patternLines.getD i []).length
      { p with
          patternLines :=
            p.patternLines.set i (p.patternLines.getD i [] ++ pyTake spaces taken)
          floorLine := p.floorLine ++ pyDrop spaces taken })

/-- `AzulGame.execute_move(player, source, color, line)`.  The acting player
is passed by index (`self.players.index(player)` recovers exactly this index,
player names being distinct).  Order of effects follows the source: take the
color and displace/strip, then the first-player-marker transfer (the marker
test `any(tile.color == "1" for tile in self.center.tiles)` reads the
already-stripped center, which `marker_phase` receives), then placement. -/
def execute_move (g : Game) (pIdx : Nat) (src : SourceSel) (color : TColor)
    (line : Int) : Game :=
  let taken := (source_tiles g src).filter (fun t => decide (t = color))
  place_phase (marker_phase (take_phase g src color) pIdx src) pIdx line taken

/-- One pop from the end of the bag:
`factory.tiles = [self.bag.pop() for _ in range(4) if self.bag]`, elementwise. -/
def dealFactory : Nat → List TColor → List TColor × List TColor
  | 0, bag => ([], bag)
  | n + 1, bag =>
      match bag.getLast? with
      | none => ([], bag)
      | some t =>
          let r := dealFactory n bag.dropLast
          (t :: r.1, r.2)

/-- Deal 4 tiles to each of `k` factories in order, threading the bag. -/
def dealFactories : Nat → List TColor → List (List TColor) × List TColor
  | 0, bag => ([], bag)
  | k + 1, bag =>
      let f := dealFactory 4 bag
      let r := dealFactories k f.2
      (f.1 :: r.1, r.2)

/-- `AzulGame.setup_game`, with the shuffled 100-tile bag passed in
(`random.shuffle` is a nondeterministic permutation, resolved by the
reachability relation): deal 4 tiles to every factory from the end of the
bag, reseed the center with the marker. -/
def setup_game (g : Game) (shuffled : List TColor) : Game :=
  let d := dealFactories g.factories.length shuffled
  { g with bag := d.2, factories := d.1, center := [.one] }

/-- `AzulGame.is_game_over`: some player has a fully occupied wall row. -/
def is_game_over (g : Game) : Bool :=
  g.players.any (fun p => p.wall.any (fun row => row.all (fun c => c.isSome)))

/-- `AzulGame.end_game_scoring`: add each player's end-game bonuses. -/
def end_game_scoring (g : Game) : Game :=
  { g with
      players := g.players.map (fun p =>
        let b := calculate_end_game_bonus p
        { p with score := p.score + (b.1 : Int) + (b.2.1 : Int) + (b.2.2 : Int) }) }

/-- One iteration of the `for i, line in enumerate(player.pattern_lines)`
loop of `AzulGame.move_to_wall`, threading `(player, discard)`.  In free
mode `choose` resolves the human column prompt (the reachability relation
only admits choices from the offered valid columns). -/
def process_line (mode : Mode) (choose : List Nat → Nat)
    (st : PlayerSt × List TColor) (i : Nat) : PlayerSt × List TColor :=
  let p := st.1
  let d := st.2
  let line := p.patternLines.getD i []
  if line.length = i + 1 then
    let color := line.headD .R
    match mode with
    | .pattern =>
        let col := (WALL_PATTERN.getD i []).findIdx (fun x => decide (x = color))
        let p1 := { p with
          wall := p.wall.set i ((p.wall.getD i []).set col (some color)) }
        let p2 := { p1 with score := p1.score + (score_tile p1 i col : Int) }
        ({ p2 with patternLines := p2.patternLines.set i [] }, d ++ line)
    | .free =>
        let validCols := (List.range 5).filter (fun j =>
          decide ((p.wall.getD i []).getD j none = none) &&
            (List.range 5).all
              (fun k => !decide ((p.wall.getD k []).getD j none = some color)))
        if validCols.isEmpty then
          ({ p with
              floorLine := p.floorLine ++ line
              patternLines := p.patternLines.set i [] }, d)
        else
          let col := choose validCols
          let p1 := { p with
            wall := p.wall.set i ((p.wall.getD i []).set col (some color)) }
          let p2 := { p1 with score := p1.score + (score_tile p1 i col : Int) }
          ({ p2 with patternLines := p2.patternLines.set i [] }, d ++ line)
  else st

/-- `AzulGame.move_to_wall(player)`: move complete pattern lines to the wall
(scoring each), then apply the floor penalty with a floor of 0 and discard
the floor line. -/
def move_to_wall (g : Game) (pIdx : Nat) (choose : List Nat → Nat) : Game :=
  let p := g.players.getD pIdx emptyPlayer
  let r := (List.range p.patternLines.length).foldl
    (process_line g.mode choose) (p, g.discard)
  let pointsLost := calculate_floor_penalty r.1.floorLine.length
  let p2 := { r.1 with
    score := max 0 (r.1.score - (pointsLost : Int))
    floorLine := [] }
  { g with players := g.players.set pIdx p2, discard := r.2 ++ r.1.floorLine }

/-- `AzulGame.reset_factories`, with the reshuffled pool passed in: refill
the bag from the non-marker discard when it is low, deal 4 tiles per
factory, reseed the center with one marker. -/
def reset_factories (g : Game) (shuffled : List TColor) : Game :=
  let needRefill : Bool := g.bag.length < g.factories.length * 4
  let bag0 := if needRefill then shuffled else g.bag
  let discard0 :=
    if needRefill then g.discard.filter (fun t => decide (t = .one)) else g.discard
  let d := dealFactories g.factories.length bag0
  { g with bag := d.2, discard := discard0, factories := d.1, center := [.one] }

/-- The `for player in self.players: self.move_to_wall(player)` phase of
`AzulGame.end_round`. -/
def wall_phase (g : Game) (choose : List Nat → Nat) : Game :=
  (List.range g.players.length).foldl (fun gg i => move_to_wall gg i choose) g

/-- `AzulGame.end_round` followed by the `self.round_num += 1` of
`play_game` and the `self.active_player = self.first_player_token` with
which the next `play_round` begins. -/
def end_round_op (g : Game) (choose : List Nat → Nat)
    (shuffled : List TColor) : Game :=
  let g2 := reset_factories (wall_phase g choose) shuffled
  { g2 with roundNum := g2.roundNum + 1, activePlayer := g2.firstPlayerToken }

/-- One player turn as driven by `play_round`: `execute_move` on the active
player followed by `active_player = (active_player + 1) % len(players)`. -/
def play_turn_step (g : Game) (src : SourceSel) (color : TColor)
    (line : Int) : Game :=
  let g1 := execute_move g g.activePlayer src color line
  { g1 with activePlayer := (g1.activePlayer + 1) % g1.players.length }

/-- The guards under which a move reaches `execute_move`: the color is a real
color present in the chosen source, and the line is the floor (`-1`) or one
of `get_valid_lines` for the active player (both the interactive input loop
and every strategy guarantee this). -/
def valid_move (g : Game) (src : SourceSel) (color : TColor) (line : Int) :
    Prop :=
  color ≠ .one ∧ color ∈ source_tiles g src ∧
    (line = -1 ∨ (0 ≤ line ∧
      line.toNat ∈ get_valid_lines (g.players.getD g.activePlayer emptyPlayer)
        color g.mode))

instance (g : Game) (src : SourceSel) (color : TColor) (line : Int) :
    Decidable (valid_move g src color line) := by
  unfold valid_move; infer_instance

/-- States reachable through the public operations of `AzulGame` in the
order `play_game` drives them: `setup_game`, repeated guarded
`execute_move` turns, `end_round` once no factory has tiles and the center
holds nothing but (possibly) the marker, and `end_game_scoring` once the
game is over.  Bag shuffles are arbitrary permutations; the free-mode
column prompt is an arbitrary function choosing among the offered columns. -/
inductive Reachable : Game → Prop where
  | setup (n : Nat) (mode : Mode) (shuffled : List TColor) (hn : 1 ≤ n)
      (hperm : shuffled.Perm startTiles) :
      Reachable (setup_game (initGame n mode) shuffled)
  | turn (g : Game) (src : SourceSel) (color : TColor) (line : Int)
      (hg : Reachable g) (hv : valid_move g src color line) :
      Reachable (play_turn_step g src color line)
  | round_end (g : Game) (choose : List Nat → Nat) (shuffled : List TColor)
      (hg : Reachable g)
      (hchoose : ∀ l, l ≠ [] → choose l ∈ l)
      (hfac : ∀ f ∈ g.factories, f = [])
      (hcen : is_center_valid_choice g = false)
      (hperm : (wall_phase g choose).bag.length <
          (wall_phase g choose).factories.length * 4 →
        shuffled.Perm ((wall_phase g choose).bag ++
          (wall_phase g choose).discard.filter (fun t => !decide (t = .one)))) :
      Reachable (end_round_op g choose shuffled)
  | finish (g : Game) (hg : Reachable g) (hover : is_game_over g = true) :
      Reachable (end_game_scoring g)

/-! ## CPU strategies (`cpu.py`)

Each algorithm is a pure function of the game state returning
`Except String Move`; the `RuntimeError("No valid moves available")` raised
by `find_least_negative` is embedded as the corresponding `Except.error`.
-/

/-- `set(tile.color for tile in source.tiles if tile.color != "1")`, iterated
in first-occurrence order. -/
def colors_of (tiles : List TColor) : List TColor :=
  uniqueFirst (tiles.filter (fun t => !decide (t = .one)))

/-- The source list used by `dummy_algorithm`, `find_least_negative` and
`minmax_algorithm`: all factories, plus the center only when
`is_center_valid_choice()`. -/
def sources_gated (g : Game) : List SourceSel :=
  (List.range g.factories.length).map .factory ++
    (if is_center_valid_choice g then [.center] else [])

/-- The source list used by the other strategies:
`self.game.factories + [self.game.center]`. -/
def sources_all (g : Game) : List SourceSel :=
  (List.range g.factories.length).map .factory ++ [.center]

/-- `AzulCPU.find_least_negative`: scan gated sources and their colors for
the color with the fewest tiles (strict improvement, so the first minimum
wins), returning a floor move; raise when nothing was found. -/
def find_least_negative (g : Game) : Except String Move :=
  let st := (sources_gated g).foldl (fun acc s =>
    (colors_of (source_tiles g s)).foldl (fun acc2 c =>
      let tiles := (source_tiles g s).filter (fun t => decide (t = c))
      if ltOptNat tiles.length acc2.2 then
        (some ((s, c, -1) : Move), some tiles.length)
      else acc2) acc) ((none, none) : Option Move × Option Nat)
  match st.1 with
  | some mv => .ok mv
  | none => .error "No valid moves available"

/-- The `(source, color, valid line)` triples enumerated by the nested loops
of the greedy/smart/strategic strategies, in loop order. -/
def candidate_triples (g : Game) (srcs : List SourceSel) (player : PlayerSt) :
    List (SourceSel × TColor × Nat) :=
  srcs.flatMap (fun s =>
    (colors_of (source_tiles g s)).flatMap (fun c =>
      (get_valid_lines player c g.mode).map (fun i => (s, c, i))))

/-- `AzulCPU.dummy_algorithm`: first gated source and color with a nonempty
valid-line set, placed on the widest (`max`) valid line; otherwise
`find_least_negative`. -/
def dummy_algorithm (g : Game) : Except String Move :=
  let player := g.players.getD g.activePlayer emptyPlayer
  let found := (sources_gated g).findSome? (fun s =>
    (colors_of (source_tiles g s)).findSome? (fun c =>
      match (get_valid_lines player c g.mode).max? with
      | some m => some ((s, c, (m : Int)) : Move)
      | none => none))
  match found with
  | some mv => .ok mv
  | none => find_least_negative g

/-- `AzulCPU.greedy_algorithm`: among overflow-free candidates maximize the
number of tiles placed (state `(best, largest, least)`, `least = none`
standing for `float("inf")`); fallback `find_least_negative`. -/
def greedy_algorithm (g : Game) : Except String Move :=
  let player := g.players.getD g.activePlayer emptyPlayer
  let res := (candidate_triples g (sources_all g) player).foldl
    (fun st cand =>
      let s : SourceSel := cand.1
      let c : TColor := cand.2.1
      let i : Nat := cand.2.2
      let largest := st.2.1
      let least := st.2.2
      let tiles := (source_tiles g s).filter (fun t => decide (t = c))
      let spaces : Int := (i : Int) + 1 - (player.patternLines.getD i []).length
      if (tiles.length : Int) ≤ spaces then
        if largest < tiles.length then
          (some ((s, c, (i : Int)) : Move), tiles.length, some 0)
        else if !decide (least = some 0) then
          let tilesTooMany := (spaces - (tiles.length : Int)).natAbs
          if ltOptNat tilesTooMany least then
            (some ((s, c, (i : Int)) : Move), largest, some tilesTooMany)
          else st
        else st
      else st)
    ((none, 0, none) : Option Move × Nat × Option Nat)
  match res.1 with
  | some mv => .ok mv
  | none => find_least_negative g

/-- `AzulCPU.check_adjacents(player, row, color, col)`: horizontal/vertical
occupied neighbours of the wall cell targeted by `color` on `row` (the
column fixed by the Latin square in pattern mode, or the first legal free
column, `(False, False)` when none exists). -/
def check_adjacents (g : Game) (player : PlayerSt) (row : Nat) (color : TColor)
    (colArg : Option Nat) : Bool × Bool :=
  let col? : Option Nat :=
    match colArg with
    | some c => some c
    | none =>
        match g.mode with
        | .pattern =>
            some ((WALL_PATTERN.getD row []).findIdx (fun x => decide (x = color)))
        | .free =>
            (List.range 5).find? (fun j =>
              decide ((player.wall.getD row []).getD j none = none) &&
                (List.range 5).all (fun k =>
                  !decide ((player.wall.getD k []).getD j none = some color)))
  match col? with
  | none => (false, false)
  | some col =>
      let horizontal :=
        (decide (0 < col) && ((player.wall.getD row []).getD (col - 1) none).isSome) ||
        (decide (col < 4) && ((player.wall.getD row []).getD (col + 1) none).isSome)
      let vertical :=
        (decide (0 < row) && ((player.wall.getD (row - 1) []).getD col none).isSome) ||
        (decide (row < 4) && ((player.wall.getD (row + 1) []).getD col none).isSome)
      (horizontal, vertical)

/-- `AzulCPU.has_adjacent(player, line_index, color)`. -/
def has_adjacent (g : Game) (player : PlayerSt) (lineIndex : Nat)
    (color : TColor) : Bool :=
  let col? : Option Nat :=
    match g.mode with
    | .pattern =>
        some ((WALL_PATTERN.getD lineIndex []).findIdx (fun x => decide (x = color)))
    | .free =>
        (List.range 5).find? (fun j =>
          decide ((player.wall.getD lineIndex []).getD j none = none) &&
            (List.range 5).all (fun k =>
              !decide ((player.wall.getD k []).getD j none = some color)))
  match col? with
  | none => false
  | some col =>
      let a := check_adjacents g player lineIndex color (some col)
      a.1 || a.2

/-- `AzulCPU.is_move_in_diagonal(line, color)`.  In free mode the source
compares the `int` line to the `str` color, which is always `False`. -/
def is_move_in_diagonal (g : Game) (line : Nat) (color : TColor) : Bool :=
  match g.mode with
  | .pattern =>
      decide (line = (WALL_PATTERN.getD line []).findIdx (fun x => decide (x = color)))
  | .free => false

/-- `AzulCPU.find_least_overflow(player)`: candidate minimizing
`abs(spaces - len(tiles))` over all valid lines (strict improvement). -/
def find_least_overflow (g : Game) (player : PlayerSt) : Option Move :=
  (candidate_triples g (sources_all g) player).foldl
    (fun st cand =>
      let s : SourceSel := cand.1
      let c : TColor := cand.2.1
      let i : Nat := cand.2.2
      let tiles := (source_tiles g s).filter (fun t => decide (t = c))
      let spaces : Int := (i : Int) + 1 - (player.patternLines.getD i []).length
      let tilesTooMany := (spaces - (tiles.length : Int)).natAbs
      if ltOptNat tilesTooMany st.2 then
        (some ((s, c, (i : Int)) : Move), some tilesTooMany)
      else st)
    ((none, none) : Option Move × Option Nat)
  |>.1

/-- Loop state of `smart_algorithm`:
`(best_move, least_whitespace, most_tiles, move_found, one_adjacent_move)`. -/
structure SmartSt where
  best : Option Move
  leastWs : Option Nat
  mostTiles : Nat
  moveFound : Bool
  oneAdj : Bool

/-- `AzulCPU.smart_algorithm`: minimize whitespace; within a whitespace tier
prefer the first adjacent placement, else the most tiles placed. Fallbacks:
`find_least_overflow`, then `find_least_negative`. -/
def smart_algorithm (g : Game) : Except String Move :=
  let player := g.players.getD g.activePlayer emptyPlayer
  let res := (candidate_triples g (sources_all g) player).foldl
    (fun (st : SmartSt) cand =>
      let s : SourceSel := cand.1
      let c : TColor := cand.2.1
      let i : Nat := cand.2.2
      let tiles := (source_tiles g s).filter (fun t => decide (t = c))
      let spaces : Int := (i : Int) + 1 - (player.patternLines.getD i []).length
      if (tiles.length : Int) ≤ spaces then
        let whitespace := (spaces - (tiles.length : Int)).toNat
        if leOptNat whitespace st.leastWs then
          let reset := ltOptNat whitespace st.leastWs
          let leastWs := some whitespace
          let oneAdj0 := if reset then false else st.oneAdj
          let mostTiles0 := if reset then 0 else st.mostTiles
          if !oneAdj0 then
            if has_adjacent g player i c then
              { best := some ((s, c, (i : Int)) : Move)
                leastWs := leastWs
                mostTiles := mostTiles0
                moveFound := true
                oneAdj := true }
            else if mostTiles0 < tiles.length then
              { best := some ((s, c, (i : Int)) : Move)
                leastWs := leastWs
                mostTiles := tiles.length
                moveFound := true
                oneAdj := false }
            else
              { st with
                leastWs := leastWs
                mostTiles := mostTiles0
                moveFound := true
                oneAdj := false }
          else
            { st with leastWs := leastWs, moveFound := true }
        else
          { st with moveFound := true }
      else st)
    ({ best := none, leastWs := none, mostTiles := 0,
       moveFound := false, oneAdj := false } : SmartSt)
  let best1 := if !res.moveFound then find_least_overflow g player else res.best
  match best1 with
  | some mv => .ok mv
  | none => find_least_negative g

/-- Loop state of `strategic_algorithm`. -/
structure StrategicSt where
  best : Option Move
  leastWs : Option Nat
  mostTiles : Nat
  moveFound : Bool
  diagonal : Bool
  oneAdj : Bool
  twoAdj : Bool

/-- `AzulCPU.strategic_algorithm`: whitespace minimization with a per-tier
cascade — round-1 diagonal, both-axes adjacency, either-axis adjacency, most
tiles — each tier locking once satisfied.  Fallbacks as in `smart`. -/
def strategic_algorithm (g : Game) : Except String Move :=
  let player := g.players.getD g.activePlayer emptyPlayer
  let res := (candidate_triples g (sources_all g) player).foldl
    (fun (st : StrategicSt) cand =>
      let s : SourceSel := cand.1
      let c : TColor := cand.2.1
      let i : Nat := cand.2.2
      let mv : Move := (s, c, (i : Int))
      let tiles := (source_tiles g s).filter (fun t => decide (t = c))
      let spaces : Int := (i : Int) + 1 - (player.patternLines.getD i []).length
      if (tiles.length : Int) ≤ spaces then
        let whitespace := (spaces - (tiles.length : Int)).toNat
        if leOptNat whitespace st.leastWs then
          let reset := ltOptNat whitespace st.leastWs
          let leastWs := some whitespace
          let diag0 := if reset then false else st.diagonal
          let one0 := if reset then false else st.oneAdj
          let two0 := if reset then false else st.twoAdj
          let most0 := if reset then 0 else st.mostTiles
          if !diag0 then
            let stepDiag :=
              if g.roundNum = 1 && is_move_in_diagonal g i c then
                (some mv, true)
              else (st.best, false)
            let best1 := if stepDiag.2 then stepDiag.1 else st.best
            let diag1 := stepDiag.2
            let adj := check_adjacents g player i c none
            let best2 := if !two0 && (adj.1 && adj.2) then some mv else best1
            let two1 := if !two0 && (adj.1 && adj.2) then true else two0
            if !two1 && !one0 then
              let adj2 := check_adjacents g player i c none
              if adj2.1 || adj2.2 then
                { best := some mv
                  leastWs := leastWs
                  mostTiles := most0
                  moveFound := true
                  diagonal := diag1
                  oneAdj := true
                  twoAdj := two1 }
              else if most0 < tiles.length then
                { best := some mv
                  leastWs := leastWs
                  mostTiles := tiles.length
                  moveFound := true
                  diagonal := diag1
                  oneAdj := one0
                  twoAdj := two1 }
              else
                { best := best2
                  leastWs := leastWs
                  mostTiles := most0
                  moveFound := true
                  diagonal := diag1
                  oneAdj := one0
                  twoAdj := two1 }
            else
              { best := best2
                leastWs := leastWs
                mostTiles := most0
                moveFound := true
                diagonal := diag1
                oneAdj := one0
                twoAdj := two1 }
          else
            { st with leastWs := leastWs, moveFound := true }
        else
          { st with moveFound := true }
      else st)
    ({ best := none, leastWs := none, mostTiles := 0, moveFound := false,
       diagonal := false, oneAdj := false, twoAdj := false } : StrategicSt)
  let best1 := if !res.moveFound then find_least_overflow g player else res.best
  match best1 with
  | some mv => .ok mv
  | none => find_least_negative g

/-- A candidate of `get_efficient_moves`:
`(source, color, line, num_tiles)` with `line = -1` for the floor. -/
abbrev EMove : Type := SourceSel × TColor × Int × Nat

/-- `color_counts` as built by `get_efficient_moves`: insertion-ordered
counts of the non-marker colors of a source. -/
def color_counts (tiles : List TColor) : List (TColor × Nat) :=
  (colors_of tiles).map (fun c =>
    (c, (tiles.filter (fun t => decide (t = c))).length))

/-- `AzulCPU.get_efficient_moves(state, sources)`: pattern-mode placements
whose wall slot is open and whose pattern line accepts the color, plus a
floor move whenever no move has been recorded yet or the color count is at
most 2 (the free-mode branch of the source is `pass`). -/
def get_efficient_moves (g : Game) (player : PlayerSt)
    (srcs : List SourceSel) : List EMove :=
  srcs.foldl (fun moves s =>
    (color_counts (source_tiles g s)).foldl (fun moves2 cc =>
      let c := cc.1; let count := cc.2
      let moves3 :=
        match g.mode with
        | .pattern =>
            moves2 ++ ((List.range 5).filter (fun i =>
              let idx := (WALL_PATTERN.getD i []).findIdx (fun x => decide (x = c))
              !((player.wall.getD i []).getD idx none).isSome &&
                (match player.patternLines.getD i [] with
                 | [] => true
                 | t :: _ => decide (t = c) &&
                     decide ((player.patternLines.getD i []).length < i + 1)))).map
              (fun i => ((s, c, (i : Int), count) : EMove))
        | .free => moves2
      if moves3.isEmpty || count ≤ 2 then
        moves3 ++ [((s, c, -1, count) : EMove)]
      else moves3) moves) []

/-- `AzulCPU.minmax_algorithm`, with the per-candidate one-ply simulation
(clone both players, apply the move, run the opponent's strategy on a
temporary game, evaluate, with `evaluate_state_fast` as the `except`
fallback) abstracted as an integer-valued `oracle` on candidates — the
simulation always yields a comparison score and cannot affect which branch
runs when no candidate exists.  `opponentIsAI` is
`self.game.ai[opponent_idx] is not None`. -/
def minmax_algorithm (g : Game) (opponentIsAI : Bool)
    (oracle : EMove → Int) : Except String Move :=
  if !opponentIsAI then strategic_algorithm g
  else
    let sources := sources_gated g
    if sources.isEmpty then find_least_negative g
    else
      let player := g.players.getD g.activePlayer emptyPlayer
      let moves := get_efficient_moves g player sources
      let res := moves.foldl (fun (st : Option Move × Option Int) m =>
        let score := oracle m
        if gtOptInt score st.2 then
          (some ((m.1, m.2.1, m.2.2.1) : Move), some score)
        else st) (none, none)
      match res.1 with
      | some mv => .ok mv
      | none => find_least_negative g

/-- `AzulCPU.choose_move`, dispatching on the algorithm name string. -/
def choose_move (g : Game) (alg : String) (opponentIsAI : Bool)
    (oracle : EMove → Int) : Except String Move :=
  if alg = "dummy" then dummy_algorithm g
  else if alg = "greedy" then greedy_algorithm g
  else if alg = "smart" then smart_algorithm g
  else if alg = "strategic" then strategic_algorithm g
  else if alg = "minmax" then minmax_algorithm g opponentIsAI oracle
  else .error ("Unknown algorithm: " ++ alg)

/-! ## Rating systems (`rating_systems/base.py`, `elo.py`, `glicko2.py`)

Python floats are embedded as real numbers; `10 ** x` is `Real.rpow`,
`math.exp` / `math.log` / `math.sqrt` / `math.pi` are the corresponding real
functions.  These definitions are necessarily noncomputable (the claims about
them are settled by symbolic evaluation, not by `Nat`-style computation). -/

/-- `WIN = 1` (`base.py`). -/
def WIN : Int := 1

/-- `DRAW = 0` (`base.py`). -/
def DRAW : Int := 0

/-- `LOSS = -1` (`base.py`). -/
def LOSS : Int := -1

/-- An Elo rating record: `{"rating": …, "k_factor": …, "games": …}`. -/
structure EloRating where
  rating : Real
  k_factor : Real
  games : Nat

/-- The expected score of the first player
(`1 / (1 + 10 ** ((rating2 - rating1) / 400))` in `EloSystem.update_ratings`). -/
noncomputable def elo_expected (rating1 rating2 : Real) : Real :=
  1 / (1 + (10 : Real) ^ ((rating2 - rating1) / 400))

/-- `EloSystem.update_ratings(first, second, score)` on two existing rating
records: new ratings via `k * (actual - expected)`, game counters
incremented, K-factors decayed to `max(min_k, initial_k - k_decrease*games)`.
A `score` other than `WIN`/`LOSS`/`DRAW` leaves `actual1`/`actual2` unbound
in the source (a `NameError`), embedded as `none`. -/
noncomputable def update_ratings (initial_k min_k k_decrease : Real)
    (r1 r2 : EloRating) (score : Int) : Option (EloRating × EloRating) :=
  let expected1 := elo_expected r1.rating r2.rating
  let expected2 := 1 - expected1
  let actual? : Option (Real × Real) :=
    if score = WIN then some (1, 0)
    else if score = LOSS then some (0, 1)
    else if score = DRAW then some (0.5, 0.5)
    else none
  match actual? with
  | none => none
  | some a =>
      let games1 := r1.games + 1
      let games2 := r2.games + 1
      some
        ({ rating := r1.rating + r1.k_factor * (a.1 - expected1)
           k_factor := max min_k (initial_k - k_decrease * (games1 : Real))
           games := games1 },
         { rating := r2.rating + r2.k_factor * (a.2 - expected2)
           k_factor := max min_k (initial_k - k_decrease * (games2 : Real))
           games := games2 })

/-- `MU = 1500` (`glicko2.py`). -/
def MU : Real := 1500

/-- `EPSILON = 0.000001` (`glicko2.py`). -/
def EPSILON : Real := 0.000001

/-- `SCALE = 173.7178` (`glicko2.py`). -/
def SCALE : Real := 173.7178

/-- `MAX_ITERATIONS = 100` (`glicko2.py`). -/
def MAX_ITERATIONS : Nat := 100

/-- `CONVERGENCE_TOLERANCE = 0.000001` (`glicko2.py`). -/
def CONVERGENCE_TOLERANCE : Real := 0.000001

/-- `PI_SQUARED = math.pi * math.pi` (`glicko2.py`). -/
noncomputable def PI_SQUARED : Real := Real.pi * Real.pi

/-- `Glicko2System._f(x, delta, phi, v, a, tau_squared)`. -/
noncomputable def glicko_f (x delta phi v a tauSquared : Real) : Real :=
  let expX := Real.exp x
  let tmp := phi * phi + v + expX
  (expX * (delta * delta - tmp)) / (2 * tmp * tmp) - (x - a) / tauSquared

/-- The `v_inv = g_term * g_term * E_term * (1 - E_term)` computed by
`_compute_new_rating` before its underflow guard. -/
noncomputable def glicko_v_inv (rating opponentRating opponentRd : Real) :
    Real :=
  let mu := (rating - MU) / SCALE
  let opponentMu := (opponentRating - MU) / SCALE
  let opponentPhi := opponentRd / SCALE
  let gTerm := 1 / Real.sqrt (1 + 3 * opponentPhi * opponentPhi / PI_SQUARED)
  let eTerm := 1 / (1 + Real.exp (-(gTerm * (mu - opponentMu))))
  gTerm * gTerm * eTerm * (1 - eTerm)

/-- The `k = 1; while True: B = a - k*tau; if k > MAX_ITERATIONS or f(B) >= 0:
break; k += 1` loop of `_compute_new_rating`, returning `B`. -/
noncomputable def glicko_findB (f : Real → Real) (a tau : Real) (k : Nat) :
    Real :=
  let B := a - (k : Real) * tau
  if MAX_ITERATIONS < k ∨ 0 ≤ f B then B
  else glicko_findB f a tau (k + 1)
termination_by MAX_ITERATIONS + 1 - k
decreasing_by
  simp only [MAX_ITERATIONS] at *
  omega

/-- The Illinois-style `for _ in range(MAX_ITERATIONS)` loop of
`_compute_new_rating`, returning the final `A`.  Each iteration computes
`C` and `f(C)`, breaks once `abs(B - A)` is within tolerance, and otherwise
either advances `A` to `B` (sign change) or halves `f_A`. -/
noncomputable def glicko_illinois (f : Real → Real) :
    Nat → Real → Real → Real → Real → Real
  | 0, A, _, _, _ => A
  | n + 1, A, fA, B, fB =>
      let C := A + (A - B) * fA / (fB - fA)
      let fC := f C
      if |B - A| < CONVERGENCE_TOLERANCE then A
      else if fC * fB < 0 then glicko_illinois f n B fB C fC
      else glicko_illinois f n A (fA * 0.5) C fC

/-- `Glicko2System._compute_new_rating(rating, rd, vol, opponent_data)`:
scale to the Glicko-2 scale, compute `g`, `E` and `v_inv`, short-circuit to
the unchanged `(rating, rd, vol)` when `v_inv < EPSILON`, and otherwise run
the volatility solve and produce the rescaled triple. -/
noncomputable def compute_new_rating (tau rating rd vol opponentRating
    opponentRd score : Real) : Real × Real × Real :=
  let mu := (rating - MU) / SCALE
  let phi := rd / SCALE
  let opponentMu := (opponentRating - MU) / SCALE
  let opponentPhi := opponentRd / SCALE
  let gTerm := 1 / Real.sqrt (1 + 3 * opponentPhi * opponentPhi / PI_SQUARED)
  let eTerm := 1 / (1 + Real.exp (-(gTerm * (mu - opponentMu))))
  if glicko_v_inv rating opponentRating opponentRd < EPSILON then
    (rating, rd, vol)
  else
    let v := 1 / glicko_v_inv rating opponentRating opponentRd
    let delta := v * gTerm * (score - eTerm)
    let deltaSquared := delta * delta
    let phiSquared := phi * phi
    let a := Real.log (vol * vol)
    let tauSquared := tau * tau
    let ff := fun x => glicko_f x delta phi v a tauSquared
    let B :=
      if phiSquared + v < deltaSquared then
        Real.log (deltaSquared - phiSquared - v)
      else glicko_findB ff a tau 1
    let A := glicko_illinois ff MAX_ITERATIONS a (ff a) B (ff B)
    let newVol := Real.exp (A / 2)
    let phiStar := Real.sqrt (phiSquared + newVol * newVol)
    let newPhi := 1 / Real.sqrt (1 / (phiStar * phiStar) + 1 / v)
    let newMu := mu + newPhi * newPhi * gTerm * (score - eTerm)
    (newMu * SCALE + MU, newPhi * SCALE, newVol)

/-! ## Tile accounting -/

/-- Number of real (non-marker) tiles in a list. -/
def cnt (l : List TColor) : Nat :=
  (l.filter (fun t => !decide (t = .one))).length

/-- Sum of `f` over a list. -/
def sumBy (l : List α) (f : α → Nat) : Nat := (l.map f).sum

/-- Real tiles held on a player board: pattern lines plus floor line. -/
def player_tiles (p : PlayerSt) : Nat :=
  sumBy p.patternLines cnt + cnt p.floorLine

/-- Occupied wall cells of a player. -/
def wall_tiles (p : PlayerSt) : Nat :=
  sumBy p.wall (fun row => (row.filter (fun c => c.isSome)).length)

/-- Real tiles in play, walls excluded: factories, center, pattern lines and
floor lines. -/
def in_play (g : Game) : Nat :=
  sumBy g.factories cnt + cnt g.center + sumBy g.players player_tiles

/-- `|bag| + |discard| + tiles_in_play`, with walls excluded from
"in play". -/
def real_sum (g : Game) : Nat := cnt g.bag + cnt g.discard + in_play g

/-- The sum named by the specification: `|bag| + |discard| + tiles_in_play`
with tiles_in_play summed over sources, pattern lines, walls and floor
lines. -/
def claim_sum (g : Game) : Nat := real_sum g + sumBy g.players wall_tiles

/-! ## Specification-side definitions

These few definitions follow the wording of the specification (not the
source) and exist to be compared against the source-derived functions. -/

/-- Condition (a) of the spec for `get_valid_lines`: pattern line `i` is
empty, or all its tiles are the given color and it is not yet full. -/
def spec_line_ok (p : PlayerSt) (color : TColor) (i : Nat) : Prop :=
  p.patternLines.getD i [] = [] ∨
    ((∀ t ∈ p.patternLines.getD i [], t = color) ∧
      (p.patternLines.getD i []).length < i + 1)

instance (p : PlayerSt) (color : TColor) (i : Nat) :
    Decidable (spec_line_ok p color i) := by
  unfold spec_line_ok; infer_instance

/-- The claimed characterization of a valid line (claim C3): condition (a),
plus — in pattern mode — the wall row not holding the color, plus — in free
mode — additionally some wall column for row `i` not being foreclosed
(a column `j` with the row-`i` cell empty and no cell of column `j` holding
the color). -/
def spec_valid_line (p : PlayerSt) (color : TColor) (mode : Mode) (i : Nat) :
    Prop :=
  spec_line_ok p color i ∧
    (mode = .pattern → ¬ some color ∈ p.wall.getD i []) ∧
    (mode = .free →
      (¬ some color ∈ p.wall.getD i []) ∧
        ∃ j ∈ List.range 5, (p.wall.getD i []).getD j none = none ∧
          ∀ k ∈ List.range 5, (p.wall.getD k []).getD j none ≠ some color)

instance (p : PlayerSt) (color : TColor) (mode : Mode) (i : Nat) :
    Decidable (spec_valid_line p color mode i) := by
  unfold spec_valid_line; infer_instance

/-- The floor-penalty expression as the spec words it: the sum of the first
`min(n, 7)` entries of the schedule `[1, 1, 2, 2, 2, 3, 3]`. -/
def spec_floor_penalty (n : Nat) : Nat :=
  (([1, 1, 2, 2, 2, 3, 3] : List Nat).take (min n 7)).sum

/-- A player has the board shape produced by `Player.__post_init__`:
five pattern lines and a 5x5 wall. -/
def well_shaped (p : PlayerSt) : Prop :=
  p.patternLines.length = 5 ∧ p.wall.length = 5 ∧ ∀ r ∈ p.wall, r.length = 5

instance (p : PlayerSt) : Decidable (well_shaped p) := by
  unfold well_shaped; infer_instance

/-- Every pattern line holds tiles of one color (true of every reachable
player; `get_valid_lines` only ever inspects the first tile). -/
def monochrome (p : PlayerSt) : Prop :=
  ∀ l ∈ p.patternLines, ∀ a ∈ l, ∀ b ∈ l, a = b

instance (p : PlayerSt) : Decidable (monochrome p) := by
  unfold monochrome; infer_instance

/-- The amended characterization of `get_valid_lines` (claim C3 amended):
in **both** modes a line is valid iff condition (a) holds and the wall row
does not already hold the color — the free-mode column check of the claim is
absent from the code, whose free branch re-checks the same row. -/
def amended_valid_line (p : PlayerSt) (color : TColor) (i : Nat) : Prop :=
  spec_line_ok p color i ∧ ¬ some color ∈ p.wall.getD i []

instance (p : PlayerSt) (color : TColor) (i : Nat) :
    Decidable (amended_valid_line p color i) := by
  unfold amended_valid_line; infer_instance

/-! ## Concrete states used by counterexamples and witnesses -/

/-- The wall configuration of claim C2: row 2 holds `W` at column 0 and `Y`
at column 2, row 1 holds `K` at column 1, all other cells empty; the scored
tile sits at row 2, column 1. -/
def c2Player : PlayerSt :=
  { emptyPlayer with
      wall :=
        [[none, none, none, none, none],
         [none, some .K, none, none, none],
         [some .W, none, some .Y, none, none],
         [none, none, none, none, none],
         [none, none, none, none, none]] }

/-- A free-mode player refuting claim C3: pattern line 1 is empty and wall
row 1 holds no `R`, yet every wall column is foreclosed for row 1 — columns
0–3 already hold `R` (rows 0, 2, 3, 4) and column 4 is occupied in row 1. -/
def c3Player : PlayerSt :=
  { emptyPlayer with
      wall :=
        [[some .R, none, none, none, none],
         [none, none, none, none, some .B],
         [none, some .R, none, none, none],
         [none, none, some .R, none, none],
         [none, none, none, some .R, none]] }

/-- A fresh two-player pattern-mode game set up with the identity shuffle:
the bag `[R*20, B*20, Y*20, K*20, W*20]` is dealt from its end, so all five
factories hold `[W, W, W, W]`. -/
def cexG0 : Game := setup_game (initGame 2 .pattern) startTiles

/-- Player 1 takes the four `W` of factory 1 onto pattern line 3 (4 slots). -/
def cexG1 : Game := play_turn_step cexG0 (.factory 0) .W 3

/-- Player 2 takes factory 2's `W` onto their line 3. -/
def cexG2 : Game := play_turn_step cexG1 (.factory 1) .W 3

/-- Player 1 takes factory 3's `W` onto line 4 (5 slots, now 4 filled). -/
def cexG3 : Game := play_turn_step cexG2 (.factory 2) .W 4

/-- Player 2 takes factory 4's `W` onto their line 4. -/
def cexG4 : Game := play_turn_step cexG3 (.factory 3) .W 4

/-- Player 1 takes factory 5's `W` onto line 4: one tile completes the line,
three overflow to the floor.  All factories are now empty and the center
holds only the marker, so the round ends. -/
def cexG5 : Game := play_turn_step cexG4 (.factory 4) .W 4

/-- The state after `end_round`: both players' completed lines went to their
walls (three wall cells in total) while all their tiles went to the discard,
so bag (60) + discard (16) + factories (20) + pattern lines (4) counts 100
real tiles and the wall cells are extra. -/
def cexG6 : Game := end_round_op cexG5 (fun l => l.headD 0) []

/-- A one-player game used to witness claim C4: factory 1 holds `[W, W, B]`,
the center holds the marker and an `R`. -/
def c4Game : Game :=
  { players := [{ emptyPlayer with name := "Player 1" }]
    factories := [[.W, .W, .B], [], []]
    center := [.one, .R]
    bag := []
    discard := []
    roundNum := 1
    activePlayer := 0
    firstPlayerToken := 0
    mode := .pattern }

/-- The conclusion of claim C4 about `execute_move(player, source, color,
line)`: the chosen color leaves the source entirely; a chosen factory is
emptied with its remaining tiles displaced to the center and the token
untouched; choosing from the center removes only that color (plus the
marker when present, which then goes to the acting player's floor line and
makes them the token holder); the taken tiles fill the chosen pattern line
up to its remaining capacity, with the overflow — or, for `line = -1`, all
taken tiles — appended to the floor line after any transferred marker. -/
def c4_conclusion (g : Game) (pIdx : Nat) (src : SourceSel) (color : TColor)
    (line : Int) : Prop :=
  let g' := execute_move g pIdx src color line
  let taken := (source_tiles g src).filter (fun t => decide (t = color))
  let p := g.players.getD pIdx emptyPlayer
  let p' := g'.players.getD pIdx emptyPlayer
  let mk : List TColor :=
    if src = .center ∧ .one ∈ g.center then [.one] else []
  (¬ color ∈ source_tiles g' src) ∧
  (match src with
   | .factory i =>
      g'.factories.getD i [] = [] ∧
      g'.center = g.center ++
        (g.factories.getD i []).filter (fun t => !decide (t = color)) ∧
      g'.firstPlayerToken = g.firstPlayerToken
   | .center =>
      g'.center = (g.center.filter (fun t => !decide (t = color))).filter
        (fun t => !decide (t = .one)) ∧
      (.one ∈ g.center → g'.firstPlayerToken = pIdx) ∧
      (¬ .one ∈ g.center → g'.firstPlayerToken = g.firstPlayerToken)) ∧
  (line = -1 →
      p'.patternLines = p.patternLines ∧
      p'.floorLine = p.floorLine ++ mk ++ taken) ∧
  (0 ≤ line →
      let i := line.toNat
      p'.patternLines = p.patternLines.set i
        (p.patternLines.getD i [] ++
          taken.take (i + 1 - (p.patternLines.getD i []).length)) ∧
      p'.floorLine = p.floorLine ++ mk ++
        taken.drop (i + 1 - (p.patternLines.getD i []).length))

instance (g : Game) (pIdx : Nat) (src : SourceSel) (color : TColor)
    (line : Int) : Decidable (c4_conclusion g pIdx src color line) := by
  unfold c4_conclusion
  cases src <;> dsimp only <;> infer_instance

/-- A game with no real tile in any source, used to witness claim C5. -/
def c5Game : Game :=
  { players := [{ emptyPlayer with name := "Player 1" },
                { emptyPlayer with name := "Player 2" }]
    factories := [[], [], [], [], []]
    center := [.one]
    bag := []
    discard := []
    roundNum := 2
    activePlayer := 0
    firstPlayerToken := 0
    mode := .pattern }

/-! ## Basic list and counting lemmas -/

theorem getD_set_ne {α : Type} (l : List α) (i j : Nat) (x d : α)
    (h : j ≠ i) : (l.set i x).getD j d = l.getD j d := by
  simp [List.getD, List.getElem?_set_ne (Ne.symm h)]

theorem getD_set_self {α : Type} (l : List α) (i : Nat) (x d : α)
    (h : i < l.length) : (l.set i x).getD i d = x := by
  simp [List.getD, List.getElem?_set_self h]

theorem getD_set_self_ge {α : Type} (l : List α) (i : Nat) (x d : α)
    (h : l.length ≤ i) : (l.set i x).getD i d = l.getD i d := by
  rw [List.set_eq_of_length_le h]

theorem sumBy_append {α : Type} (l m : List α) (f : α → Nat) :
    sumBy (l ++ m) f = sumBy l f + sumBy m f := by
  simp [sumBy]

theorem sumBy_set {α : Type} (l : List α) (f : α → Nat) (i : Nat) (x d : α)
    (h : i < l.length) :
    sumBy (l.set i x) f + f (l.getD i d) = sumBy l f + f x := by
  induction l generalizing i with
  | nil => simp at h
  | cons a t ih =>
      cases i with
      | zero =>
          simp only [List.set, sumBy, List.map_cons, List.sum_cons,
            List.getD_cons_zero]
          omega
      | succ n =>
          simp only [List.length_cons, Nat.succ_lt_succ_iff] at h
          have := ih n h
          simp only [List.set, sumBy, List.map_cons, List.sum_cons,
            List.getD_cons_succ] at *
          omega

theorem sumBy_eq_zero {α : Type} (l : List α) (f : α → Nat)
    (h : ∀ x ∈ l, f x = 0) : sumBy l f = 0 := by
  induction l with
  | nil => rfl
  | cons a t ih =>
      have ht := ih (fun x hx => h x (by simp [hx]))
      simp only [sumBy, List.map_cons, List.sum_cons,
        h a (List.mem_cons_self a t)] at *
      omega

theorem cnt_nil : cnt [] = 0 := rfl

theorem cnt_cons (a : TColor) (l : List TColor) :
    cnt (a :: l) = (if a = .one then 0 else 1) + cnt l := by
  by_cases h : a = .one <;> simp [cnt, List.filter_cons, h] <;> omega

theorem cnt_append (l m : List TColor) : cnt (l ++ m) = cnt l + cnt m := by
  simp [cnt, List.filter_append]

theorem cnt_partition (p : TColor → Bool) (l : List TColor) :
    cnt (l.filter p) + cnt (l.filter (fun t => !p t)) = cnt l := by
  induction l with
  | nil => rfl
  | cons a t ih =>
      by_cases hp : p a <;>
        simp [List.filter_cons, hp, cnt_cons] <;> omega

theorem cnt_filter_not_one (l : List TColor) :
    cnt (l.filter (fun t => !decide (t = .one))) = cnt l := by
  induction l with
  | nil => rfl
  | cons a t ih =>
      by_cases ho : a = .one <;>
        simp [List.filter_cons, cnt_cons, ho, ih]

theorem cnt_filter_one (l : List TColor) :
    cnt (l.filter (fun t => decide (t = .one))) = 0 := by
  induction l with
  | nil => rfl
  | cons a t ih =>
      by_cases ho : a = .one <;>
        simp [List.filter_cons, cnt_cons, ho, ih]

theorem cnt_perm {l m : List TColor} (h : l.Perm m) : cnt l = cnt m := by
  simpa [cnt] using (h.filter (fun t => !decide (t = .one))).length_eq

theorem cnt_filter_le (p : TColor → Bool) (l : List TColor) :
    cnt (l.filter p) ≤ cnt l := by
  have := cnt_partition p l
  omega

theorem pyTake_append_pyDrop {α : Type} (n : Int) (l : List α) :
    pyTake n l ++ pyDrop n l = l := by
  by_cases h : 0 ≤ n <;> simp [pyTake, pyDrop, h, List.take_append_drop]

theorem headD_mem (l : List Nat) (h : l ≠ []) : l.headD 0 ∈ l := by
  cases l with
  | nil => exact absurd rfl h
  | cons a t => simp

/-! ## Conservation and frame lemmas for the game operations -/

theorem dealFactory_cnt (n : Nat) (bag : List TColor) :
    cnt (dealFactory n bag).1 + cnt (dealFactory n bag).2 = cnt bag := by
  induction n generalizing bag with
  | zero => simp [dealFactory, cnt_nil]
  | succ m ih =>
      cases hl : bag.getLast? with
      | none =>
          simp [dealFactory, hl, cnt_nil]
      | some t =>
          have hsplit : bag.dropLast ++ [t] = bag :=
            List.dropLast_append_getLast? t hl
          have := ih bag.dropLast
          simp only [dealFactory, hl]
          rw [cnt_cons]
          have hbag : cnt bag = cnt bag.dropLast + cnt [t] := by
            rw [← cnt_append, hsplit]
          rw [hbag, cnt_cons]
          simp only [cnt_nil]
          omega

theorem dealFactories_cnt (k : Nat) (bag : List TColor) :
    sumBy (dealFactories k bag).1 cnt + cnt (dealFactories k bag).2
      = cnt bag := by
  induction k generalizing bag with
  | zero => simp [dealFactories, sumBy]
  | succ m ih =>
      have h4 := dealFactory_cnt 4 bag
      have hrec := ih (dealFactory 4 bag).2
      simp only [dealFactories, sumBy, List.map_cons, List.sum_cons] at *
      omega

theorem dealFactories_length (k : Nat) (bag : List TColor) :
    (dealFactories k bag).1.length = k := by
  induction k generalizing bag with
  | zero => simp [dealFactories]
  | succ m ih => simp [dealFactories, ih]

theorem modifyPlayer_players (g : Game) (i : Nat) (f : PlayerSt → PlayerSt) :
    (modifyPlayer g i f).players
      = g.players.set i (f (g.players.getD i emptyPlayer)) := rfl

theorem modifyPlayer_players_length (g : Game) (i : Nat)
    (f : PlayerSt → PlayerSt) :
    (modifyPlayer g i f).players.length = g.players.length := by
  rw [modifyPlayer_players, List.length_set]

theorem modifyPlayer_getD_ne (g : Game) (i : Nat) (f : PlayerSt → PlayerSt)
    (j : Nat) (h : j ≠ i) :
    (modifyPlayer g i f).players.getD j emptyPlayer
      = g.players.getD j emptyPlayer := by
  rw [modifyPlayer_players]
  exact getD_set_ne _ _ _ _ _ h

theorem modifyPlayer_getD_self (g : Game) (i : Nat)
    (f : PlayerSt → PlayerSt) (h : i < g.players.length) :
    (modifyPlayer g i f).players.getD i emptyPlayer
      = f (g.players.getD i emptyPlayer) := by
  rw [modifyPlayer_players]
  exact getD_set_self _ _ _ _ h

theorem modifyPlayer_getD_field {β : Type} (g : Game) (i : Nat)
    (f : PlayerSt → PlayerSt) (fld : PlayerSt → β)
    (hf : ∀ p, fld (f p) = fld p) (j : Nat) :
    fld ((modifyPlayer g i f).players.getD j emptyPlayer)
      = fld (g.players.getD j emptyPlayer) := by
  by_cases hij : j = i
  · subst hij
    by_cases hlen : j < g.players.length
    · rw [modifyPlayer_getD_self g j f hlen, hf]
    · rw [modifyPlayer_players,
        List.set_eq_of_length_le (by omega : g.players.length ≤ j)]
  · rw [modifyPlayer_getD_ne g i f j hij]

theorem modifyPlayer_bag (g : Game) (i : Nat) (f : PlayerSt → PlayerSt) :
    (modifyPlayer g i f).bag = g.bag := rfl

theorem modifyPlayer_discard (g : Game) (i : Nat) (f : PlayerSt → PlayerSt) :
    (modifyPlayer g i f).discard = g.discard := rfl

theorem modifyPlayer_factories (g : Game) (i : Nat)
    (f : PlayerSt → PlayerSt) : (modifyPlayer g i f).factories = g.factories :=
  rfl

theorem modifyPlayer_center (g : Game) (i : Nat) (f : PlayerSt → PlayerSt) :
    (modifyPlayer g i f).center = g.center := rfl

theorem modifyPlayer_sumBy (g : Game) (i : Nat) (f : PlayerSt → PlayerSt)
    (h : i < g.players.length) (w : PlayerSt → Nat) :
    sumBy (modifyPlayer g i f).players w + w (g.players.getD i emptyPlayer)
      = sumBy g.players w + w (f (g.players.getD i emptyPlayer)) := by
  rw [modifyPlayer_players]
  exact sumBy_set g.players w i _ emptyPlayer h

theorem modifyPlayer_real_sum (g : Game) (i : Nat) (f : PlayerSt → PlayerSt)
    (h : i < g.players.length) (d : Nat)
    (hd : player_tiles (f (g.players.getD i emptyPlayer))
      = player_tiles (g.players.getD i emptyPlayer) + d) :
    real_sum (modifyPlayer g i f) = real_sum g + d := by
  have hmod := modifyPlayer_sumBy g i f h player_tiles
  have hbag : (modifyPlayer g i f).bag = g.bag := rfl
  have hdis : (modifyPlayer g i f).discard = g.discard := rfl
  have hfac : (modifyPlayer g i f).factories = g.factories := rfl
  have hcen : (modifyPlayer g i f).center = g.center := rfl
  simp only [real_sum, in_play, hbag, hdis, hfac, hcen, hd] at *
  omega

theorem getD_out_of_range {α : Type} (l : List α) (i : Nat) (d : α)
    (h : l.length ≤ i) : l.getD i d = d := by
  simp [List.getD, List.getElem?_eq_none h]

theorem take_phase_real_sum (g : Game) (src : SourceSel) (color : TColor) :
    real_sum (take_phase g src color)
        + cnt ((source_tiles g src).filter (fun t => decide (t = color)))
      = real_sum g := by
  cases src with
  | center =>
      have hpart := cnt_partition (fun t => decide (t = color)) g.center
      simp only [take_phase, real_sum, in_play, source_tiles]
      omega
  | factory i =>
      by_cases h : i < g.factories.length
      · have hset := sumBy_set g.factories cnt i [] [] h
        have hpart := cnt_partition (fun t => decide (t = color))
          (g.factories.getD i [])
        simp only [take_phase, real_sum, in_play, source_tiles, cnt_append]
        simp only [cnt_nil] at *
        omega
      · have hset : g.factories.set i [] = g.factories :=
          List.set_eq_of_length_le (by omega)
        have hget : g.factories.getD i [] = [] :=
          getD_out_of_range _ _ _ (by omega)
        simp only [take_phase, real_sum, in_play, source_tiles, hset, hget,
          List.filter_nil, List.append_nil, cnt_nil]
        omega

theorem player_tiles_floor_append (p : PlayerSt) (l : List TColor) :
    player_tiles { p with floorLine := p.floorLine ++ l }
      = player_tiles p + cnt l := by
  simp only [player_tiles, cnt_append]
  omega

theorem marker_phase_real_sum (g : Game) (pIdx : Nat) (src : SourceSel) :
    real_sum (marker_phase g pIdx src) = real_sum g := by
  cases src with
  | factory i => rfl
  | center =>
      simp only [marker_phase]
      by_cases h1 : TColor.one ∈ g.center
      · rw [if_pos h1]
        have hcen : cnt (g.center.filter (fun t => !decide (t = .one)))
            = cnt g.center := cnt_filter_not_one g.center
        by_cases hp : pIdx < g.players.length
        · have hmod := modifyPlayer_sumBy g pIdx
            (fun p => { p with floorLine := p.floorLine ++ [.one] }) hp
            player_tiles
          have hone : cnt [TColor.one] = 0 := by decide
          have hfp := player_tiles_floor_append
            (g.players.getD pIdx emptyPlayer) [TColor.one]
          simp only [real_sum, in_play, modifyPlayer_players, modifyPlayer_bag,
            modifyPlayer_discard, modifyPlayer_factories, hcen] at *
          omega
        · have hset : ∀ q : PlayerSt, g.players.set pIdx q = g.players :=
            fun q => List.set_eq_of_length_le (by omega)
          simp only [real_sum, in_play, modifyPlayer_players, modifyPlayer_bag,
            modifyPlayer_discard, modifyPlayer_factories, hset, hcen]
      · rw [if_neg h1]

theorem place_phase_real_sum (g : Game) (pIdx : Nat) (line : Int)
    (taken : List TColor) (hp : pIdx < g.players.length)
    (hline : line = -1 ∨ (0 ≤ line ∧
      line.toNat < (g.players.getD pIdx emptyPlayer).patternLines.length)) :
    real_sum (place_phase g pIdx line taken) = real_sum g + cnt taken := by
  rcases hline with h | ⟨h0, hlt⟩
  · subst h
    simp only [place_phase, if_pos rfl]
    exact modifyPlayer_real_sum g pIdx
      (fun p => { p with floorLine := p.floorLine ++ taken }) hp (cnt taken)
      (player_tiles_floor_append _ taken)
  · have hne : line ≠ -1 := by omega
    simp only [place_phase, if_neg hne]
    refine modifyPlayer_real_sum g pIdx
      (fun p =>
        { p with
            patternLines := p.patternLines.set line.toNat
              (p.patternLines.getD line.toNat [] ++
                pyTake ((line.toNat : Int) + 1 -
                  ((p.patternLines.getD line.toNat []).length : Int)) taken)
            floorLine := p.floorLine ++
              pyDrop ((line.toNat : Int) + 1 -
                ((p.patternLines.getD line.toNat []).length : Int)) taken })
      hp (cnt taken) ?_
    have hsplit : cnt (pyTake ((line.toNat : Int) + 1 -
          (((g.players.getD pIdx emptyPlayer).patternLines.getD line.toNat
            []).length : Int)) taken)
        + cnt (pyDrop ((line.toNat : Int) + 1 -
          (((g.players.getD pIdx emptyPlayer).patternLines.getD line.toNat
            []).length : Int)) taken) = cnt taken := by
      rw [← cnt_append, pyTake_append_pyDrop]
    have hset := sumBy_set
      (g.players.getD pIdx emptyPlayer).patternLines cnt line.toNat
      ((g.players.getD pIdx emptyPlayer).patternLines.getD line.toNat [] ++
        pyTake ((line.toNat : Int) + 1 -
          (((g.players.getD pIdx emptyPlayer).patternLines.getD line.toNat
            []).length : Int)) taken) [] hlt
    simp only [player_tiles, cnt_append] at *
    omega

theorem take_phase_players (g : Game) (src : SourceSel) (color : TColor) :
    (take_phase g src color).players = g.players := by
  cases src <;> rfl

theorem take_phase_bag (g : Game) (src : SourceSel) (color : TColor) :
    (take_phase g src color).bag = g.bag := by
  cases src <;> rfl

theorem take_phase_discard (g : Game) (src : SourceSel) (color : TColor) :
    (take_phase g src color).discard = g.discard := by
  cases src <;> rfl

theorem take_phase_token (g : Game) (src : SourceSel) (color : TColor) :
    (take_phase g src color).firstPlayerToken = g.firstPlayerToken := by
  cases src <;> rfl

theorem take_phase_scalars (g : Game) (src : SourceSel) (color : TColor) :
    (take_phase g src color).roundNum = g.roundNum ∧
    (take_phase g src color).activePlayer = g.activePlayer ∧
    (take_phase g src color).mode = g.mode := by
  cases src <;> exact ⟨rfl, rfl, rfl⟩

theorem marker_phase_bag (g : Game) (pIdx : Nat) (src : SourceSel) :
    (marker_phase g pIdx src).bag = g.bag := by
  cases src with
  | factory i => rfl
  | center =>
      by_cases h : TColor.one ∈ g.center <;>
        simp [marker_phase, h, modifyPlayer_bag]

theorem marker_phase_discard (g : Game) (pIdx : Nat) (src : SourceSel) :
    (marker_phase g pIdx src).discard = g.discard := by
  cases src with
  | factory i => rfl
  | center =>
      by_cases h : TColor.one ∈ g.center <;>
        simp [marker_phase, h, modifyPlayer_discard]

theorem marker_phase_factories (g : Game) (pIdx : Nat) (src : SourceSel) :
    (marker_phase g pIdx src).factories = g.factories := by
  cases src with
  | factory i => rfl
  | center =>
      by_cases h : TColor.one ∈ g.center <;>
        simp [marker_phase, h, modifyPlayer_factories]

theorem marker_phase_scalars (g : Game) (pIdx : Nat) (src : SourceSel) :
    (marker_phase g pIdx src).roundNum = g.roundNum ∧
    (marker_phase g pIdx src).activePlayer = g.activePlayer ∧
    (marker_phase g pIdx src).mode = g.mode := by
  cases src with
  | factory i => exact ⟨rfl, rfl, rfl⟩
  | center =>
      by_cases h : TColor.one ∈ g.center <;>
        simp [marker_phase, h] <;> exact ⟨rfl, rfl, rfl⟩

theorem marker_phase_players_length (g : Game) (pIdx : Nat)
    (src : SourceSel) :
    (marker_phase g pIdx src).players.length = g.players.length := by
  cases src with
  | factory i => rfl
  | center =>
      by_cases h : TColor.one ∈ g.center <;>
        simp [marker_phase, h, modifyPlayer_players]

theorem marker_phase_getD_patternLines (g : Game) (pIdx : Nat)
    (src : SourceSel) (j : Nat) :
    ((marker_phase g pIdx src).players.getD j emptyPlayer).patternLines
      = (g.players.getD j emptyPlayer).patternLines := by
  cases src with
  | factory i => rfl
  | center =>
      by_cases h : TColor.one ∈ g.center
      · have step : ((marker_phase g pIdx .center).players.getD j
              emptyPlayer).patternLines
            = (((modifyPlayer g pIdx
              (fun p => { p with floorLine := p.floorLine ++ [.one] })).players.getD
                j emptyPlayer)).patternLines := by
          simp only [marker_phase, if_pos h]
        rw [step]
        exact modifyPlayer_getD_field g pIdx
          (fun p => { p with floorLine := p.floorLine ++ [.one] })
          (fun p => p.patternLines) (fun p => rfl) j
      · simp [marker_phase, h]

theorem execute_move_real_sum (g : Game) (pIdx : Nat) (src : SourceSel)
    (color : TColor) (line : Int) (hp : pIdx < g.players.length)
    (hline : line = -1 ∨ (0 ≤ line ∧
      line.toNat < (g.players.getD pIdx emptyPlayer).patternLines.length)) :
    real_sum (execute_move g pIdx src color line) = real_sum g := by
  have h1 := take_phase_real_sum g src color
  have h2 := marker_phase_real_sum (take_phase g src color) pIdx src
  have hplen : pIdx <
      (marker_phase (take_phase g src color) pIdx src).players.length := by
    rw [marker_phase_players_length, take_phase_players]
    exact hp
  have hpat :
      ((marker_phase (take_phase g src color) pIdx src).players.getD pIdx
        emptyPlayer).patternLines
      = (g.players.getD pIdx emptyPlayer).patternLines := by
    rw [marker_phase_getD_patternLines, take_phase_players]
  have h3 := place_phase_real_sum
    (marker_phase (take_phase g src color) pIdx src) pIdx line
    ((source_tiles g src).filter (fun t => decide (t = color))) hplen
    (by
      rcases hline with h | ⟨h0, hlt⟩
      · exact Or.inl h
      · exact Or.inr ⟨h0, by rw [hpat]; exact hlt⟩)
  simp only [execute_move] at *
  omega

theorem foldl_preserve {σ α β : Type} (f : σ → α → σ) (v : σ → β)
    (h : ∀ s a, v (f s a) = v s) :
    ∀ (l : List α) (s : σ), v (l.foldl f s) = v s := by
  intro l
  induction l with
  | nil => intro s; rfl
  | cons a t ih => intro s; rw [List.foldl_cons, ih, h]

theorem foldl_inv {σ α : Type} (f : σ → α → σ) (Q : σ → Prop)
    (h : ∀ s a, Q s → Q (f s a)) :
    ∀ (l : List α) (s : σ), Q s → Q (l.foldl f s) := by
  intro l
  induction l with
  | nil => intro s hs; exact hs
  | cons a t ih => intro s hs; exact ih _ (h s a hs)

theorem place_phase_bag (g : Game) (pIdx : Nat) (line : Int)
    (taken : List TColor) : (place_phase g pIdx line taken).bag = g.bag := by
  by_cases h : line = -1 <;> simp [place_phase, h, modifyPlayer_bag]

theorem place_phase_discard (g : Game) (pIdx : Nat) (line : Int)
    (taken : List TColor) :
    (place_phase g pIdx line taken).discard = g.discard := by
  by_cases h : line = -1 <;> simp [place_phase, h, modifyPlayer_discard]

theorem place_phase_factories (g : Game) (pIdx : Nat) (line : Int)
    (taken : List TColor) :
    (place_phase g pIdx line taken).factories = g.factories := by
  by_cases h : line = -1 <;> simp [place_phase, h, modifyPlayer_factories]

theorem place_phase_center (g : Game) (pIdx : Nat) (line : Int)
    (taken : List TColor) :
    (place_phase g pIdx line taken).center = g.center := by
  by_cases h : line = -1 <;> simp [place_phase, h, modifyPlayer_center]

theorem place_phase_token (g : Game) (pIdx : Nat) (line : Int)
    (taken : List TColor) :
    (place_phase g pIdx line taken).firstPlayerToken = g.firstPlayerToken := by
  by_cases h : line = -1 <;> simp [place_phase, h] <;> rfl

theorem place_phase_scalars (g : Game) (pIdx : Nat) (line : Int)
    (taken : List TColor) :
    (place_phase g pIdx line taken).roundNum = g.roundNum ∧
    (place_phase g pIdx line taken).activePlayer = g.activePlayer ∧
    (place_phase g pIdx line taken).mode = g.mode := by
  by_cases h : line = -1 <;> simp [place_phase, h] <;> exact ⟨rfl, rfl, rfl⟩

theorem place_phase_players_length (g : Game) (pIdx : Nat) (line : Int)
    (taken : List TColor) :
    (place_phase g pIdx line taken).players.length = g.players.length := by
  by_cases h : line = -1 <;>
    simp [place_phase, h, modifyPlayer_players_length]

theorem marker_phase_token (g : Game) (pIdx : Nat) (src : SourceSel) :
    (marker_phase g pIdx src).firstPlayerToken = g.firstPlayerToken ∨
      ((marker_phase g pIdx src).firstPlayerToken = pIdx ∧ src = .center ∧
        TColor.one ∈ g.center) := by
  cases src with
  | factory i => exact Or.inl rfl
  | center =>
      by_cases h : TColor.one ∈ g.center
      · exact Or.inr ⟨by simp [marker_phase, h], rfl, h⟩
      · exact Or.inl (by simp [marker_phase, h])

theorem execute_move_players_length (g : Game) (pIdx : Nat)
    (src : SourceSel) (color : TColor) (line : Int) :
    (execute_move g pIdx src color line).players.length
      = g.players.length := by
  simp only [execute_move]
  rw [place_phase_players_length, marker_phase_players_length,
    take_phase_players]

theorem execute_move_bag (g : Game) (pIdx : Nat) (src : SourceSel)
    (color : TColor) (line : Int) :
    (execute_move g pIdx src color line).bag = g.bag := by
  simp only [execute_move]
  rw [place_phase_bag, marker_phase_bag, take_phase_bag]

theorem execute_move_discard (g : Game) (pIdx : Nat) (src : SourceSel)
    (color : TColor) (line : Int) :
    (execute_move g pIdx src color line).discard = g.discard := by
  simp only [execute_move]
  rw [place_phase_discard, marker_phase_discard, take_phase_discard]

theorem execute_move_scalars (g : Game) (pIdx : Nat) (src : SourceSel)
    (color : TColor) (line : Int) :
    (execute_move g pIdx src color line).roundNum = g.roundNum ∧
    (execute_move g pIdx src color line).activePlayer = g.activePlayer ∧
    (execute_move g pIdx src color line).mode = g.mode := by
  simp only [execute_move]
  have h1 := take_phase_scalars g src color
  have h2 := marker_phase_scalars (take_phase g src color) pIdx src
  have h3 := place_phase_scalars
    (marker_phase (take_phase g src color) pIdx src) pIdx line
    ((source_tiles g src).filter (fun t => decide (t = color)))
  exact ⟨h3.1.trans (h2.1.trans h1.1), h3.2.1.trans (h2.2.1.trans h1.2.1),
    h3.2.2.trans (h2.2.2.trans h1.2.2)⟩

theorem getD_replicate_nil (n i : Nat) :
    (List.replicate n ([] : List TColor)).getD i [] = [] := by
  by_cases h : i < n
  · simp [List.getD, List.getElem?_replicate, h]
  · exact getD_out_of_range _ _ _ (by simpa using by omega)

theorem process_line_conserve (mode : Mode) (choose : List Nat → Nat)
    (st : PlayerSt × List TColor) (i : Nat) :
    player_tiles (process_line mode choose st i).1
        + cnt (process_line mode choose st i).2
      = player_tiles st.1 + cnt st.2 := by
  obtain ⟨p, d⟩ := st
  by_cases hc : ((p.patternLines.getD i []).length = i + 1)
  · have hlt : i < p.patternLines.length := by
      by_contra hge
      rw [getD_out_of_range _ _ _ (by omega)] at hc
      simp at hc
    have hset := sumBy_set p.patternLines cnt i [] [] hlt
    simp only [cnt_nil] at hset
    cases mode with
    | pattern =>
        simp only [process_line]
        rw [if_pos hc]
        simp only [player_tiles, cnt_append]
        omega
    | free =>
        simp only [process_line]
        rw [if_pos hc]
        dsimp only
        split
        · simp only [player_tiles, cnt_append]
          omega
        · simp only [player_tiles, cnt_append]
          omega
  · simp only [process_line]
    rw [if_neg hc]

theorem move_to_wall_real_sum (g : Game) (pIdx : Nat)
    (choose : List Nat → Nat) :
    real_sum (move_to_wall g pIdx choose) = real_sum g := by
  have hfold := foldl_preserve (process_line g.mode choose)
    (fun st => player_tiles st.1 + cnt st.2)
    (fun st i => process_line_conserve g.mode choose st i)
    (List.range (g.players.getD pIdx emptyPlayer).patternLines.length)
    (g.players.getD pIdx emptyPlayer, g.discard)
  by_cases hp : pIdx < g.players.length
  · have hset := sumBy_set g.players player_tiles pIdx
      { ((List.range (g.players.getD pIdx
            emptyPlayer).patternLines.length).foldl
          (process_line g.mode choose)
          (g.players.getD pIdx emptyPlayer, g.discard)).1 with
          score := max 0 (((List.range (g.players.getD pIdx
              emptyPlayer).patternLines.length).foldl
            (process_line g.mode choose)
            (g.players.getD pIdx emptyPlayer, g.discard)).1.score -
            ((calculate_floor_penalty ((List.range (g.players.getD pIdx
                emptyPlayer).patternLines.length).foldl
              (process_line g.mode choose)
              (g.players.getD pIdx emptyPlayer,
                g.discard)).1.floorLine.length) : Int))
          floorLine := [] } emptyPlayer hp
    simp only [move_to_wall, real_sum, in_play, player_tiles, cnt_append,
      cnt_nil] at *
    omega
  · have hempty : g.players.getD pIdx emptyPlayer = emptyPlayer :=
      getD_out_of_range _ _ _ (by omega)
    have hstep : ∀ (q : PlayerSt) (d : List TColor) (i : Nat),
        q = emptyPlayer →
        process_line g.mode choose (q, d) i = (q, d) := by
      intro q d i hq
      subst hq
      have hnil : emptyPlayer.patternLines.getD i [] = [] :=
        getD_replicate_nil 5 i
      have hline : ¬ ((emptyPlayer.patternLines.getD i []).length = i + 1) := by
        rw [hnil]
        simp
      simp only [process_line]
      rw [if_neg hline]
    have hfold2 : ∀ (l : List Nat) (q : PlayerSt) (d : List TColor),
        q = emptyPlayer →
        l.foldl (process_line g.mode choose) (q, d) = (q, d) := by
      intro l
      induction l with
      | nil => intro q d hq; rfl
      | cons a t ih =>
          intro q d hq
          rw [List.foldl_cons, hstep q d a hq, ih q d hq]
    have hr := hfold2
      (List.range (g.players.getD pIdx emptyPlayer).patternLines.length)
      (g.players.getD pIdx emptyPlayer) g.discard hempty
    have hsetnoop : ∀ q : PlayerSt, g.players.set pIdx q = g.players :=
      fun q => List.set_eq_of_length_le (by omega)
    simp only [move_to_wall]
    rw [hr]
    simp only [hempty, hsetnoop, real_sum, in_play]
    have hfe : emptyPlayer.floorLine = [] := rfl
    rw [hfe, List.append_nil]

theorem move_to_wall_frame (g : Game) (pIdx : Nat)
    (choose : List Nat → Nat) :
    (move_to_wall g pIdx choose).bag = g.bag ∧
    (move_to_wall g pIdx choose).factories = g.factories ∧
    (move_to_wall g pIdx choose).center = g.center ∧
    (move_to_wall g pIdx choose).roundNum = g.roundNum ∧
    (move_to_wall g pIdx choose).activePlayer = g.activePlayer ∧
    (move_to_wall g pIdx choose).firstPlayerToken = g.firstPlayerToken ∧
    (move_to_wall g pIdx choose).mode = g.mode ∧
    (move_to_wall g pIdx choose).players.length = g.players.length := by
  refine ⟨rfl, rfl, rfl, rfl, rfl, rfl, rfl, ?_⟩
  simp [move_to_wall]

theorem wall_phase_frame (g : Game) (choose : List Nat → Nat) :
    (wall_phase g choose).bag = g.bag ∧
    (wall_phase g choose).factories = g.factories ∧
    (wall_phase g choose).center = g.center ∧
    (wall_phase g choose).firstPlayerToken = g.firstPlayerToken ∧
    (wall_phase g choose).players.length = g.players.length ∧
    (wall_phase g choose).mode = g.mode := by
  unfold wall_phase
  generalize List.range g.players.length = l
  induction l generalizing g with
  | nil => exact ⟨rfl, rfl, rfl, rfl, rfl, rfl⟩
  | cons a t ih =>
      rw [List.foldl_cons]
      have hm := move_to_wall_frame g a choose
      have hrec := ih (move_to_wall g a choose)
      exact ⟨hrec.1.trans hm.1, hrec.2.1.trans hm.2.1,
        hrec.2.2.1.trans hm.2.2.1, hrec.2.2.2.1.trans hm.2.2.2.2.2.1,
        hrec.2.2.2.2.1.trans hm.2.2.2.2.2.2.2, hrec.2.2.2.2.2.trans hm.2.2.2.2.2.2.1⟩

theorem wall_phase_real_sum (g : Game) (choose : List Nat → Nat) :
    real_sum (wall_phase g choose) = real_sum g := by
  unfold wall_phase
  generalize List.range g.players.length = l
  induction l generalizing g with
  | nil => rfl
  | cons a t ih =>
      rw [List.foldl_cons, ih, move_to_wall_real_sum]

theorem cnt_center_zero_of_invalid (g : Game)
    (hcen : is_center_valid_choice g = false) : cnt g.center = 0 := by
  simp only [is_center_valid_choice, decide_eq_false_iff_not] at hcen
  simp only [cnt]
  omega

theorem reset_factories_real_sum (g : Game) (shuffled : List TColor)
    (hfac : ∀ f ∈ g.factories, f = [])
    (hcen : is_center_valid_choice g = false)
    (hperm : g.bag.length < g.factories.length * 4 →
      shuffled.Perm (g.bag ++ g.discard.filter (fun t => !decide (t = .one)))) :
    real_sum (reset_factories g shuffled) = real_sum g := by
  have hfaczero : sumBy g.factories cnt = 0 :=
    sumBy_eq_zero _ _ (fun f hf => by rw [hfac f hf]; rfl)
  have hcenzero : cnt g.center = 0 := cnt_center_zero_of_invalid g hcen
  have honec : cnt [TColor.one] = 0 := by decide
  have hdealb := dealFactories_cnt g.factories.length g.bag
  simp only [reset_factories, real_sum, in_play]
  split
  next h1 =>
    have hr : g.bag.length < g.factories.length * 4 := of_decide_eq_true h1
    have hsh : cnt shuffled = cnt g.bag + cnt g.discard := by
      rw [cnt_perm (hperm hr), cnt_append, cnt_filter_not_one]
    have hdeal := dealFactories_cnt g.factories.length shuffled
    have hdis0 : cnt (g.discard.filter (fun t => decide (t = .one))) = 0 :=
      cnt_filter_one g.discard
    omega
  next h1 => omega

theorem sumBy_map {α β : Type} (l : List α) (f : α → β) (w : β → Nat) :
    sumBy (l.map f) w = sumBy l (fun x => w (f x)) := by
  simp [sumBy, List.map_map]
  rfl

theorem sumBy_congr {α : Type} (l : List α) (w1 w2 : α → Nat)
    (h : ∀ x ∈ l, w1 x = w2 x) : sumBy l w1 = sumBy l w2 := by
  induction l with
  | nil => rfl
  | cons a t ih =>
      have ht := ih (fun x hx => h x (by simp [hx]))
      have ha := h a (by simp)
      simp only [sumBy, List.map_cons, List.sum_cons] at *
      omega

theorem end_game_scoring_real_sum (g : Game) :
    real_sum (end_game_scoring g) = real_sum g := by
  simp only [end_game_scoring, real_sum, in_play]
  rw [sumBy_map]
  have h := sumBy_congr g.players
    (fun x => player_tiles
      { x with score := x.score + ((calculate_end_game_bonus x).1 : Int)
          + ((calculate_end_game_bonus x).2.1 : Int)
          + ((calculate_end_game_bonus x).2.2 : Int) })
    player_tiles (fun p hp => rfl)
  omega

theorem cnt_startTiles : cnt startTiles = 100 := by decide

theorem player_tiles_init (n : Nat) :
    ∀ x ∈ (List.range n).map
      (fun i => { emptyPlayer with name := "Player " ++ toString (i + 1) }),
      player_tiles x = 0 := by
  intro x hx
  rcases List.mem_map.1 hx with ⟨i, hi, rfl⟩
  rfl

theorem setup_game_real_sum (n : Nat) (mode : Mode)
    (shuffled : List TColor) :
    real_sum (setup_game (initGame n mode) shuffled) = cnt shuffled := by
  have hdeal := dealFactories_cnt (initGame n mode).factories.length shuffled
  have hplayers : sumBy (initGame n mode).players player_tiles = 0 :=
    sumBy_eq_zero _ _ (player_tiles_init n)
  simp only [setup_game, real_sum, in_play, initGame] at *
  simp only [cnt_nil] at *
  have honec : cnt [TColor.one] = 0 := by decide
  omega

theorem mem_valid_lines_lt (p : PlayerSt) (c : TColor) (m : Mode) (i : Nat)
    (h : i ∈ get_valid_lines p c m) : i < p.patternLines.length := by
  unfold get_valid_lines at h
  rw [List.mem_filter] at h
  exact List.mem_range.1 h.1

theorem execute_move_token (g : Game) (pIdx : Nat) (src : SourceSel)
    (color : TColor) (line : Int) :
    (execute_move g pIdx src color line).firstPlayerToken
        = g.firstPlayerToken ∨
      (execute_move g pIdx src color line).firstPlayerToken = pIdx := by
  simp only [execute_move]
  rw [place_phase_token]
  rcases marker_phase_token (take_phase g src color) pIdx src with h | h
  · rw [h, take_phase_token]
    exact Or.inl rfl
  · rw [h.1]
    exact Or.inr rfl

theorem setup_game_players (g : Game) (shuffled : List TColor) :
    (setup_game g shuffled).players = g.players := rfl

theorem initGame_players_length (n : Nat) (mode : Mode) :
    (initGame n mode).players.length = n := by
  simp [initGame]

theorem reset_factories_players (g : Game) (shuffled : List TColor) :
    (reset_factories g shuffled).players = g.players := rfl

theorem reset_factories_token (g : Game) (shuffled : List TColor) :
    (reset_factories g shuffled).firstPlayerToken = g.firstPlayerToken := rfl

theorem end_game_scoring_players_length (g : Game) :
    (end_game_scoring g).players.length = g.players.length := by
  simp [end_game_scoring]

/-- The combined reachability invariant: exactly 100 real tiles outside the
walls, at least one player, and in-range active-player and token indices. -/
theorem reachable_invariant (g : Game) (h : Reachable g) :
    real_sum g = 100 ∧ 1 ≤ g.players.length ∧
      g.activePlayer < g.players.length ∧
      g.firstPlayerToken < g.players.length := by
  induction h with
  | setup n mode shuffled hn hperm =>
      have hlen : (setup_game (initGame n mode) shuffled).players.length
          = n := by
        rw [setup_game_players, initGame_players_length]
      refine ⟨?_, ?_, ?_, ?_⟩
      · rw [setup_game_real_sum, cnt_perm hperm, cnt_startTiles]
      · omega
      · show (0 : Nat) < _
        omega
      · show (0 : Nat) < _
        omega
  | turn g src color line hg hv ih =>
      obtain ⟨hsum, hlen, hact, htok⟩ := ih
      have hline : line = -1 ∨ (0 ≤ line ∧ line.toNat <
          (g.players.getD g.activePlayer emptyPlayer).patternLines.length) := by
        rcases hv.2.2 with h | ⟨h0, hmem⟩
        · exact Or.inl h
        · exact Or.inr ⟨h0, mem_valid_lines_lt _ _ _ _ hmem⟩
      have hexec := execute_move_real_sum g g.activePlayer src color line
        hact hline
      have hexlen := execute_move_players_length g g.activePlayer src
        color line
      have hexscal := execute_move_scalars g g.activePlayer src color line
      have hlen2 : (play_turn_step g src color line).players.length
          = g.players.length := hexlen
      refine ⟨?_, ?_, ?_, ?_⟩
      · show real_sum (execute_move g g.activePlayer src color line) = 100
        rw [hexec, hsum]
      · omega
      · show ((execute_move g g.activePlayer src color line).activePlayer
              + 1) %
            (execute_move g g.activePlayer src color line).players.length <
          (execute_move g g.activePlayer src color line).players.length
        have hpos : 0 <
            (execute_move g g.activePlayer src color line).players.length := by
          rw [hexlen]; omega
        exact Nat.mod_lt _ hpos
      · rcases execute_move_token g g.activePlayer src color line with h | h
        · show (execute_move g g.activePlayer src color line).firstPlayerToken
              < _
          rw [h, hlen2]
          exact htok
        · show (execute_move g g.activePlayer src color line).firstPlayerToken
              < _
          rw [h, hlen2]
          exact hact
  | round_end g choose shuffled hg hchoose hfac hcen hperm ih =>
      obtain ⟨hsum, hlen, hact, htok⟩ := ih
      have hwf := wall_phase_frame g choose
      have hfac1 : ∀ f ∈ (wall_phase g choose).factories, f = [] := by
        rw [hwf.2.1]; exact hfac
      have hcen1 : is_center_valid_choice (wall_phase g choose) = false := by
        unfold is_center_valid_choice
        rw [hwf.2.2.1]
        unfold is_center_valid_choice at hcen
        exact hcen
      have hreset := reset_factories_real_sum (wall_phase g choose) shuffled
        hfac1 hcen1 hperm
      have hwsum := wall_phase_real_sum g choose
      refine ⟨?_, ?_, ?_, ?_⟩
      · show real_sum (reset_factories (wall_phase g choose) shuffled) = 100
        rw [hreset, hwsum, hsum]
      · show (reset_factories (wall_phase g choose) shuffled).players.length
            ≥ 1
        rw [reset_factories_players, hwf.2.2.2.2.1]
        exact hlen
      · show (reset_factories (wall_phase g choose)
            shuffled).firstPlayerToken <
          (reset_factories (wall_phase g choose) shuffled).players.length
        rw [reset_factories_players, reset_factories_token, hwf.2.2.2.1,
          hwf.2.2.2.2.1]
        exact htok
      · show (reset_factories (wall_phase g choose)
            shuffled).firstPlayerToken <
          (reset_factories (wall_phase g choose) shuffled).players.length
        rw [reset_factories_players, reset_factories_token, hwf.2.2.2.1,
          hwf.2.2.2.2.1]
        exact htok
  | finish g hg hover ih =>
      obtain ⟨hsum, hlen, hact, htok⟩ := ih
      have hl := end_game_scoring_players_length g
      refine ⟨?_, ?_, ?_, ?_⟩
      · rw [end_game_scoring_real_sum, hsum]
      · omega
      · show g.activePlayer < _
        omega
      · show g.firstPlayerToken < _
        omega

/-! ## Claim theorems -/

/-- C1 (counterexample): the claimed invariant — bag + discard + tiles in
play *including wall cells* equals 100 after every operation — is false on
the code: `move_to_wall` sends every tile of a completed pattern line to the
discard *and* marks the wall cell, so after the first `end_round` with a
completed line the claimed sum exceeds 100.  The reachable state `cexG6`
(a full first round of a two-player game under the identity shuffle) has
claimed sum 103. -/
theorem c1_counterexample : ¬ (∀ g, Reachable g → claim_sum g = 100) := by
  intro h
  have r0 : Reachable cexG0 :=
    Reachable.setup 2 .pattern startTiles (by omega) (List.Perm.refl _)
  have r1 : Reachable cexG1 :=
    Reachable.turn cexG0 (.factory 0) .W 3 r0 (by decide)
  have r2 : Reachable cexG2 :=
    Reachable.turn cexG1 (.factory 1) .W 3 r1 (by decide)
  have r3 : Reachable cexG3 :=
    Reachable.turn cexG2 (.factory 2) .W 4 r2 (by decide)
  have r4 : Reachable cexG4 :=
    Reachable.turn cexG3 (.factory 3) .W 4 r3 (by decide)
  have r5 : Reachable cexG5 :=
    Reachable.turn cexG4 (.factory 4) .W 4 r4 (by decide)
  have r6 : Reachable cexG6 :=
    Reachable.round_end cexG5 (fun l => l.headD 0) [] r5
      (fun l hl => headD_mem l hl) (by decide) (by decide) (by decide)
  exact absurd (h cexG6 r6) (by decide)

/-- C1 (amended): in every reachable state the bag, the discard and the
tiles in play **excluding wall cells** (sources, pattern lines, floor
lines, markers not counted) total exactly 100; the sum the claim names,
which also counts wall cells, equals 100 plus the number of occupied wall
cells, because a completed pattern line is discarded whole while the wall
records only a color. -/
theorem c1_amended_conservation (g : Game) (h : Reachable g) :
    real_sum g = 100 ∧
      claim_sum g = 100 + sumBy g.players wall_tiles := by
  have hinv := reachable_invariant g h
  refine ⟨hinv.1, ?_⟩
  unfold claim_sum
  omega

/-- C1 witness: the amended conservation theorem applied to the concrete
freshly set-up two-player game. -/
theorem c1_witness :
    real_sum cexG0 = 100 ∧
      claim_sum cexG0 = 100 + sumBy cexG0.players wall_tiles :=
  c1_amended_conservation cexG0
    (Reachable.setup 2 .pattern startTiles (by omega) (List.Perm.refl _))

/-- C2 (code evaluation): on the claimed wall — `W` and `Y` flanking the
placed tile in row 2 with `K` directly above — `GameLogic.score_tile`
returns 4 (one per tile and per adjacent neighbour), not the 5 the claim,
the official scoring rule and the repository's other implementation
(`AzulGame.py`, which adds one point when both axes connect) prescribe. -/
theorem c2_score_tile_eval : score_tile c2Player 2 1 = 4 := by decide

/-- C7 (confirmed): `calculate_floor_penalty n` is the sum of the first
`min(n, 7)` entries of the schedule `[1, 1, 2, 2, 2, 3, 3]`, with the
concrete values `0, 1, 4, 14, 14` at `n = 0, 1, 3, 7, 10`; tiles beyond the
seventh add nothing. -/
theorem c7_floor_penalty :
    (∀ n, calculate_floor_penalty n = spec_floor_penalty n) ∧
      calculate_floor_penalty 0 = 0 ∧ calculate_floor_penalty 1 = 1 ∧
      calculate_floor_penalty 3 = 4 ∧ calculate_floor_penalty 7 = 14 ∧
      calculate_floor_penalty 10 = 14 := by
  refine ⟨?_, by decide, by decide, by decide, by decide, by decide⟩
  intro n
  unfold calculate_floor_penalty spec_floor_penalty FLOOR_PENALTIES
  by_cases h : n ≤ 7
  · rw [Nat.min_eq_left h]
  · rw [Nat.min_eq_right (by omega),
      List.take_of_length_le (by simp; omega),
      List.take_of_length_le (by simp)]

theorem getD_mem {α : Type} (l : List α) (i : Nat) (d : α)
    (h : i < l.length) : l.getD i d ∈ l := by
  rw [List.getD_eq_getElem l d h]
  exact List.getElem_mem h

theorem row_all_iff (row : List (Option TColor)) (c : TColor)
    (hlen : row.length ≤ 5) :
    ((List.range 5).all (fun j => !decide (row.getD j none = some c)) = true)
      ↔ some c ∉ row := by
  rw [List.all_eq_true]
  constructor
  · intro h hmem
    obtain ⟨j, hj, hje⟩ := List.getElem_of_mem hmem
    have hj5 : j < 5 := lt_of_lt_of_le hj hlen
    have hx := h j (List.mem_range.2 hj5)
    rw [List.getD_eq_getElem row none hj, hje] at hx
    simp at hx
  · intro h j hjr
    simp only [Bool.not_eq_true', decide_eq_false_iff_not]
    intro heq
    by_cases hj : j < row.length
    · rw [List.getD_eq_getElem row none hj] at heq
      exact h (heq ▸ List.getElem_mem hj)
    · rw [getD_out_of_range _ _ _ (by omega)] at heq
      simp at heq

theorem lineOK_iff (p : PlayerSt) (c : TColor) (i : Nat)
    (hmono : monochrome p) (hi : i < p.patternLines.length) :
    ((match p.patternLines.getD i [] with
      | [] => true
      | t :: _ => decide (t = c) &&
          decide ((p.patternLines.getD i []).length < i + 1)) = true)
    ↔ (p.patternLines.getD i [] = [] ∨
        ((∀ t ∈ p.patternLines.getD i [], t = c) ∧
          (p.patternLines.getD i []).length < i + 1)) := by
  have hmem : p.patternLines.getD i [] ∈ p.patternLines := getD_mem _ _ _ hi
  cases hl : p.patternLines.getD i [] with
  | nil => simp
  | cons t rest =>
      rw [hl] at hmem
      simp only [Bool.and_eq_true, decide_eq_true_eq]
      constructor
      · rintro ⟨ht, hlen⟩
        refine Or.inr ⟨?_, hlen⟩
        intro x hx
        have hxt := hmono _ hmem x hx t (by simp)
        rw [hxt, ht]
      · rintro (h | ⟨hall, hlen⟩)
        · exact absurd h (by simp)
        · exact ⟨hall t (by simp), hlen⟩

/-- C3 (counterexample): the claimed characterization of `get_valid_lines`
is false at the free-mode player `c3Player` with color `R` and line 1: the
code reports line 1 as valid, but every wall column for row 1 is foreclosed
(columns 0–3 hold `R`, column 4 is occupied in row 1), so the claim excludes
it. -/
theorem c3_counterexample :
    ¬ (∀ (p : PlayerSt) (c : TColor) (m : Mode) (i : Nat),
        i ∈ get_valid_lines p c m ↔
          i < p.patternLines.length ∧ spec_valid_line p c m i) := by
  intro h
  have h1 := (h c3Player .R .free 1).mp (by decide)
  exact absurd h1.2 (by decide)

/-- C3 (amended): for a player with the shape the game constructs (5x5
wall, monochrome pattern lines), `get_valid_lines` returns exactly the
lines `i` with (a) line `i` empty, or all its tiles of the given color and
not full, and (b) the wall row `i` not already holding the color — in
**both** modes; the free-mode branch of the code merely re-checks the same
row, so the claimed column-foreclosure exclusion does not happen. -/
theorem c3_amended_valid_lines (p : PlayerSt) (c : TColor) (m : Mode)
    (i : Nat) (hsh : well_shaped p) (hmono : monochrome p) :
    i ∈ get_valid_lines p c m ↔
      (i < p.patternLines.length ∧ amended_valid_line p c i) := by
  have hrow : (p.wall.getD i []).length ≤ 5 := by
    by_cases hi5 : i < p.wall.length
    · exact le_of_eq (hsh.2.2 _ (getD_mem _ _ _ hi5))
    · rw [getD_out_of_range _ _ _ (by omega)]
      simp
  unfold get_valid_lines amended_valid_line spec_line_ok
  rw [List.mem_filter, List.mem_range]
  cases m with
  | pattern =>
      constructor
      · rintro ⟨hi, hcond⟩
        rw [Bool.and_eq_true] at hcond
        have hline := (lineOK_iff p c i hmono hi).1 hcond.1
        have hwall : ¬ some c ∈ p.wall.getD i [] := by
          have h2 := hcond.2
          simp only [Bool.not_eq_true', decide_eq_false_iff_not] at h2
          exact h2
        exact ⟨hi, hline, hwall⟩
      · rintro ⟨hi, hline, hwall⟩
        refine ⟨hi, ?_⟩
        rw [Bool.and_eq_true]
        exact ⟨(lineOK_iff p c i hmono hi).2 hline, by simpa using hwall⟩
  | free =>
      constructor
      · rintro ⟨hi, hcond⟩
        rw [Bool.and_eq_true] at hcond
        have hline := (lineOK_iff p c i hmono hi).1 hcond.1
        have h2 := hcond.2
        rw [Bool.and_eq_true] at h2
        have hwall : ¬ some c ∈ p.wall.getD i [] := by
          have h3 := h2.1
          simp only [Bool.not_eq_true', decide_eq_false_iff_not] at h3
          exact h3
        exact ⟨hi, hline, hwall⟩
      · rintro ⟨hi, hline, hwall⟩
        refine ⟨hi, ?_⟩
        rw [Bool.and_eq_true]
        refine ⟨(lineOK_iff p c i hmono hi).2 hline, ?_⟩
        rw [Bool.and_eq_true]
        exact ⟨by simpa using hwall, (row_all_iff _ c hrow).2 hwall⟩

/-- C3 witness: the amended characterization evaluated at the concrete
free-mode player `c3Player`, color `R`, line 1. -/
theorem c3_witness :
    well_shaped c3Player ∧ monochrome c3Player ∧
      (1 ∈ get_valid_lines c3Player .R .free ↔
        (1 < c3Player.patternLines.length ∧
          amended_valid_line c3Player .R 1)) :=
  ⟨by decide, by decide,
    c3_amended_valid_lines c3Player .R .free 1 (by decide) (by decide)⟩

theorem set_nonneg_score (l : List PlayerSt) (i : Nat) (q : PlayerSt)
    (hq : 0 ≤ q.score) (h : ∀ x ∈ l, 0 ≤ x.score) :
    ∀ x ∈ l.set i q, 0 ≤ x.score := by
  intro x hx
  rcases List.mem_or_eq_of_mem_set hx with hm | rfl
  · exact h x hm
  · exact hq

theorem getD_score_nonneg (l : List PlayerSt) (i : Nat)
    (h : ∀ x ∈ l, 0 ≤ x.score) : 0 ≤ (l.getD i emptyPlayer).score := by
  by_cases hi : i < l.length
  · exact h _ (getD_mem _ _ _ hi)
  · rw [getD_out_of_range _ _ _ (by omega)]
    decide

theorem modifyPlayer_score_inv (g : Game) (i : Nat) (f : PlayerSt → PlayerSt)
    (hf : ∀ p, (f p).score = p.score) (h : ∀ x ∈ g.players, 0 ≤ x.score) :
    ∀ x ∈ (modifyPlayer g i f).players, 0 ≤ x.score := by
  rw [modifyPlayer_players]
  exact set_nonneg_score _ _ _
    (by rw [hf]; exact getD_score_nonneg _ _ h) h

theorem execute_move_score_inv (g : Game) (pIdx : Nat) (src : SourceSel)
    (color : TColor) (line : Int) (h : ∀ x ∈ g.players, 0 ≤ x.score) :
    ∀ x ∈ (execute_move g pIdx src color line).players, 0 ≤ x.score := by
  have h1 : ∀ x ∈ (take_phase g src color).players, 0 ≤ x.score := by
    rw [take_phase_players]; exact h
  have h2 : ∀ x ∈ (marker_phase (take_phase g src color) pIdx src).players,
      0 ≤ x.score := by
    cases src with
    | factory i => exact h1
    | center =>
        by_cases hm : TColor.one ∈ (take_phase g .center color).center
        · have hpl : (marker_phase (take_phase g .center color) pIdx
              .center).players = (modifyPlayer (take_phase g .center color)
                pIdx (fun p =>
                  { p with floorLine := p.floorLine ++ [.one] })).players := by
            simp [marker_phase, hm]
          rw [hpl]
          exact modifyPlayer_score_inv _ _ _ (fun p => rfl) h1
        · have hpl : marker_phase (take_phase g .center color) pIdx .center
              = take_phase g .center color := by
            simp [marker_phase, hm]
          rw [hpl]
          exact h1
  simp only [execute_move]
  by_cases hl : line = -1
  · simp only [place_phase, if_pos hl]
    exact modifyPlayer_score_inv _ _ _ (fun p => rfl) h2
  · simp only [place_phase, if_neg hl]
    exact modifyPlayer_score_inv _ _ _ (fun p => rfl) h2

theorem move_to_wall_score_inv (g : Game) (pIdx : Nat)
    (choose : List Nat → Nat) (h : ∀ x ∈ g.players, 0 ≤ x.score) :
    ∀ x ∈ (move_to_wall g pIdx choose).players, 0 ≤ x.score := by
  simp only [move_to_wall]
  exact set_nonneg_score _ _ _ (le_max_left 0 _) h

theorem wall_phase_score_inv (g : Game) (choose : List Nat → Nat)
    (h : ∀ x ∈ g.players, 0 ≤ x.score) :
    ∀ x ∈ (wall_phase g choose).players, 0 ≤ x.score := by
  unfold wall_phase
  exact foldl_inv (fun gg i => move_to_wall gg i choose)
    (fun gg => ∀ x ∈ gg.players, 0 ≤ x.score)
    (fun gg i hg => move_to_wall_score_inv gg i choose hg)
    (List.range g.players.length) g h

theorem end_game_scoring_score_inv (g : Game)
    (h : ∀ x ∈ g.players, 0 ≤ x.score) :
    ∀ x ∈ (end_game_scoring g).players, 0 ≤ x.score := by
  intro x hx
  simp only [end_game_scoring] at hx
  rcases List.mem_map.1 hx with ⟨y, hy, rfl⟩
  have hyn := h y hy
  simp only
  omega

/-- C6 (confirmed): in every reachable state every player's score is a
non-negative integer — `move_to_wall` applies the floor penalty as
`max(0, score - points_lost)`, so the score is clamped at 0 rather than
going negative, and the remaining operations only add non-negative
amounts. -/
theorem c6_score_nonneg (g : Game) (h : Reachable g) :
    ∀ p ∈ g.players, 0 ≤ p.score := by
  induction h with
  | setup n mode shuffled hn hperm =>
      intro p hp
      rw [setup_game_players] at hp
      simp only [initGame] at hp
      rcases List.mem_map.1 hp with ⟨i, hi, rfl⟩
      exact Int.le_refl 0
  | turn g src color line hg hv ih =>
      intro p hp
      exact execute_move_score_inv g g.activePlayer src color line ih p hp
  | round_end g choose shuffled hg hchoose hfac hcen hperm ih =>
      intro p hp
      have hinv := wall_phase_score_inv g choose ih
      rw [show (end_round_op g choose shuffled).players
          = (wall_phase g choose).players from rfl] at hp
      exact hinv p hp
  | finish g hg hover ih =>
      intro p hp
      exact end_game_scoring_score_inv g ih p hp

/-- C6 witness: the invariant applied to player 1 of the concrete freshly
set-up game `cexG0`. -/
theorem c6_witness : 0 ≤ ({ emptyPlayer with name := "Player 1" } : PlayerSt).score :=
  c6_score_nonneg cexG0
    (Reachable.setup 2 .pattern startTiles (by omega) (List.Perm.refl _))
    _ (by decide)

theorem marker_phase_getD_invariant {β : Type} (g : Game) (pIdx : Nat)
    (src : SourceSel) (fld : PlayerSt → β)
    (hf : ∀ p : PlayerSt,
      fld { p with floorLine := p.floorLine ++ [.one] } = fld p) (j : Nat) :
    fld ((marker_phase g pIdx src).players.getD j emptyPlayer)
      = fld (g.players.getD j emptyPlayer) := by
  cases src with
  | factory i => rfl
  | center =>
      by_cases h : TColor.one ∈ g.center
      · have step : fld ((marker_phase g pIdx .center).players.getD j
              emptyPlayer)
            = fld (((modifyPlayer g pIdx
              (fun p => { p with floorLine := p.floorLine ++ [.one] })).players.getD
                j emptyPlayer)) := by
          simp only [marker_phase, if_pos h]
        rw [step]
        exact modifyPlayer_getD_field g pIdx _ fld hf j
      · simp [marker_phase, h]

theorem place_phase_getD_invariant {β : Type} (g : Game) (pIdx : Nat)
    (line : Int) (taken : List TColor) (fld : PlayerSt → β)
    (hfa : ∀ p : PlayerSt,
      fld { p with floorLine := p.floorLine ++ taken } = fld p)
    (hfb : ∀ p : PlayerSt,
      fld { p with
        patternLines := p.patternLines.set line.toNat
          (p.patternLines.getD line.toNat [] ++
            pyTake ((line.toNat : Int) + 1 -
              ((p.patternLines.getD line.toNat []).length : Int)) taken)
        floorLine := p.floorLine ++
          pyDrop ((line.toNat : Int) + 1 -
            ((p.patternLines.getD line.toNat []).length : Int)) taken }
        = fld p) (j : Nat) :
    fld ((place_phase g pIdx line taken).players.getD j emptyPlayer)
      = fld (g.players.getD j emptyPlayer) := by
  by_cases hl : line = -1
  · simp only [place_phase, if_pos hl]
    exact modifyPlayer_getD_field g pIdx _ fld hfa j
  · simp only [place_phase, if_neg hl]
    exact modifyPlayer_getD_field g pIdx _ fld hfb j

theorem execute_move_getD_wall (g : Game) (pIdx : Nat) (src : SourceSel)
    (color : TColor) (line : Int) (j : Nat) :
    ((execute_move g pIdx src color line).players.getD j emptyPlayer).wall
      = ((g.players.getD j emptyPlayer)).wall := by
  simp only [execute_move]
  rw [place_phase_getD_invariant _ _ _ _ (fun p => p.wall)
    (fun p => rfl) (fun p => rfl) j]
  rw [marker_phase_getD_invariant _ _ _ (fun p => p.wall) (fun p => rfl) j]
  rw [take_phase_players]

theorem execute_move_getD_score (g : Game) (pIdx : Nat) (src : SourceSel)
    (color : TColor) (line : Int) (j : Nat) :
    ((execute_move g pIdx src color line).players.getD j emptyPlayer).score
      = ((g.players.getD j emptyPlayer)).score := by
  simp only [execute_move]
  rw [place_phase_getD_invariant _ _ _ _ (fun p => p.score)
    (fun p => rfl) (fun p => rfl) j]
  rw [marker_phase_getD_invariant _ _ _ (fun p => p.score) (fun p => rfl) j]
  rw [take_phase_players]

theorem execute_move_getD_name (g : Game) (pIdx : Nat) (src : SourceSel)
    (color : TColor) (line : Int) (j : Nat) :
    ((execute_move g pIdx src color line).players.getD j emptyPlayer).name
      = ((g.players.getD j emptyPlayer)).name := by
  simp only [execute_move]
  rw [place_phase_getD_invariant _ _ _ _ (fun p => p.name)
    (fun p => rfl) (fun p => rfl) j]
  rw [marker_phase_getD_invariant _ _ _ (fun p => p.name) (fun p => rfl) j]
  rw [take_phase_players]

theorem marker_phase_getD_ne (g : Game) (pIdx : Nat) (src : SourceSel)
    (j : Nat) (h : j ≠ pIdx) :
    (marker_phase g pIdx src).players.getD j emptyPlayer
      = g.players.getD j emptyPlayer := by
  cases src with
  | factory i => rfl
  | center =>
      by_cases hm : TColor.one ∈ g.center
      · have step : (marker_phase g pIdx .center).players.getD j emptyPlayer
            = (modifyPlayer g pIdx
              (fun p => { p with floorLine := p.floorLine ++ [.one] })).players.getD
                j emptyPlayer := by
          simp only [marker_phase, if_pos hm]
        rw [step]
        exact modifyPlayer_getD_ne g pIdx _ j h
      · simp [marker_phase, hm]

theorem execute_move_getD_ne (g : Game) (pIdx : Nat) (src : SourceSel)
    (color : TColor) (line : Int) (j : Nat) (h : j ≠ pIdx) :
    (execute_move g pIdx src color line).players.getD j emptyPlayer
      = g.players.getD j emptyPlayer := by
  simp only [execute_move]
  have hpl : (place_phase (marker_phase (take_phase g src color) pIdx src)
      pIdx line ((source_tiles g src).filter (fun t => decide (t = color)))).players.getD
        j emptyPlayer
      = (marker_phase (take_phase g src color) pIdx src).players.getD j
        emptyPlayer := by
    by_cases hl : line = -1
    · simp only [place_phase, if_pos hl]
      exact modifyPlayer_getD_ne _ pIdx _ j h
    · simp only [place_phase, if_neg hl]
      exact modifyPlayer_getD_ne _ pIdx _ j h
  rw [hpl, marker_phase_getD_ne _ _ _ _ h, take_phase_players]

theorem execute_move_factories_center (g : Game) (pIdx : Nat)
    (color : TColor) (line : Int) :
    (execute_move g pIdx .center color line).factories = g.factories := by
  simp only [execute_move]
  rw [place_phase_factories, marker_phase_factories]
  rfl

theorem execute_move_factories_factory (g : Game) (pIdx i : Nat)
    (color : TColor) (line : Int) :
    (execute_move g pIdx (.factory i) color line).factories
      = g.factories.set i [] := by
  simp only [execute_move]
  rw [place_phase_factories, marker_phase_factories]
  rfl

/-- C10 (confirmed): `execute_move` leaves the bag, the discard, every
player's wall and score (and name), all players other than the acting one,
and — apart from the chosen factory, which it clears — all factories
untouched; only the chosen source, the center, the acting player's pattern
lines and floor line, and the first-player-token index can change. -/
theorem c10_execute_move_frame (g : Game) (pIdx : Nat) (src : SourceSel)
    (color : TColor) (line : Int) :
    (execute_move g pIdx src color line).bag = g.bag ∧
    (execute_move g pIdx src color line).discard = g.discard ∧
    (execute_move g pIdx src color line).roundNum = g.roundNum ∧
    (execute_move g pIdx src color line).activePlayer = g.activePlayer ∧
    (execute_move g pIdx src color line).mode = g.mode ∧
    (execute_move g pIdx src color line).players.length
      = g.players.length ∧
    (∀ j, ((execute_move g pIdx src color line).players.getD j
          emptyPlayer).wall = (g.players.getD j emptyPlayer).wall ∧
        ((execute_move g pIdx src color line).players.getD j
          emptyPlayer).score = (g.players.getD j emptyPlayer).score ∧
        ((execute_move g pIdx src color line).players.getD j
          emptyPlayer).name = (g.players.getD j emptyPlayer).name) ∧
    (∀ j, j ≠ pIdx →
      (execute_move g pIdx src color line).players.getD j emptyPlayer
        = g.players.getD j emptyPlayer) ∧
    (src = .center →
      (execute_move g pIdx src color line).factories = g.factories) ∧
    (∀ i k, src = .factory i → k ≠ i →
      (execute_move g pIdx src color line).factories.getD k []
        = g.factories.getD k []) := by
  have hscal := execute_move_scalars g pIdx src color line
  refine ⟨execute_move_bag g pIdx src color line,
    execute_move_discard g pIdx src color line, hscal.1, hscal.2.1,
    hscal.2.2, execute_move_players_length g pIdx src color line,
    ?_, ?_, ?_, ?_⟩
  · intro j
    exact ⟨execute_move_getD_wall g pIdx src color line j,
      execute_move_getD_score g pIdx src color line j,
      execute_move_getD_name g pIdx src color line j⟩
  · intro j hj
    exact execute_move_getD_ne g pIdx src color line j hj
  · rintro rfl
    exact execute_move_factories_center g pIdx color line
  · rintro i k rfl hk
    rw [execute_move_factories_factory g pIdx i color line]
    exact getD_set_ne _ _ _ _ _ hk

/-- C10 witness: two frame consequences of the theorem at a concrete move —
the bag is untouched and a factory other than the chosen one keeps its
tiles. -/
theorem c10_witness :
    (execute_move c4Game 0 (.factory 0) .W 0).bag = c4Game.bag ∧
    (execute_move c4Game 0 (.factory 0) .W 0).factories.getD 1 []
      = c4Game.factories.getD 1 [] :=
  ⟨(c10_execute_move_frame c4Game 0 (.factory 0) .W 0).1,
    (c10_execute_move_frame c4Game 0 (.factory 0) .W
      0).2.2.2.2.2.2.2.2.2 0 1 rfl (by decide)⟩

theorem factory_lt_of_mem (g : Game) (i : Nat) (color : TColor)
    (h : color ∈ g.factories.getD i []) : i < g.factories.length := by
  by_contra hge
  rw [getD_out_of_range _ _ _ (by omega)] at h
  exact absurd h (List.not_mem_nil color)

theorem filter_not_one_of_not_mem (l : List TColor)
    (h : TColor.one ∉ l) :
    l.filter (fun t => !decide (t = .one)) = l := by
  apply List.filter_eq_self.2
  intro a ha
  simp only [Bool.not_eq_true', decide_eq_false_iff_not]
  intro heq
  exact h (heq ▸ ha)

theorem one_mem_take_center (g : Game) (color : TColor)
    (hcol : color ≠ .one) :
    TColor.one ∈ (take_phase g .center color).center ↔
      TColor.one ∈ g.center := by
  show TColor.one ∈ g.center.filter (fun t => !decide (t = color)) ↔ _
  rw [List.mem_filter]
  constructor
  · exact fun h => h.1
  · intro h
    refine ⟨h, ?_⟩
    simp only [Bool.not_eq_true', decide_eq_false_iff_not]
    exact fun he => hcol he.symm

theorem valid_line_length_lt (p : PlayerSt) (c : TColor) (m : Mode)
    (i : Nat) (h : i ∈ get_valid_lines p c m) :
    (p.patternLines.getD i []).length < i + 1 := by
  unfold get_valid_lines at h
  rw [List.mem_filter] at h
  have hb := h.2
  rw [Bool.and_eq_true] at hb
  have h1 := hb.1
  cases hl : p.patternLines.getD i [] with
  | nil => simp
  | cons t rest =>
      rw [hl] at h1
      rw [Bool.and_eq_true] at h1
      have := h1.2
      rw [decide_eq_true_eq] at this
      rw [← hl] at this ⊢
      exact this

theorem pyTake_of_nonneg {α : Type} (n : Int) (h : 0 ≤ n) (l : List α) :
    pyTake n l = l.take n.toNat := if_pos h

theorem pyDrop_of_nonneg {α : Type} (n : Int) (h : 0 ≤ n) (l : List α) :
    pyDrop n l = l.drop n.toNat := if_pos h

theorem marker_phase_getD_floor (g : Game) (pIdx : Nat) (src : SourceSel)
    (hp : pIdx < g.players.length) :
    ((marker_phase g pIdx src).players.getD pIdx emptyPlayer).floorLine
      = (g.players.getD pIdx emptyPlayer).floorLine ++
        (if src = .center ∧ TColor.one ∈ g.center then [.one] else []) := by
  cases src with
  | factory i =>
      rw [if_neg (by rintro ⟨h, -⟩; cases h)]
      rw [List.append_nil]
      rfl
  | center =>
      by_cases hm : TColor.one ∈ g.center
      · rw [if_pos ⟨rfl, hm⟩]
        have step : ((marker_phase g pIdx .center).players.getD pIdx
              emptyPlayer)
            = ((modifyPlayer g pIdx
              (fun p => { p with floorLine := p.floorLine ++ [.one] })).players.getD
                pIdx emptyPlayer) := by
          simp only [marker_phase, if_pos hm]
        rw [step, modifyPlayer_getD_self g pIdx _ hp]
      · rw [if_neg (by rintro ⟨-, h⟩; exact hm h)]
        rw [List.append_nil]
        have step : marker_phase g pIdx .center = g := by
          simp [marker_phase, hm]
        rw [step]

theorem marker_phase_token_eq (g : Game) (pIdx : Nat) (src : SourceSel) :
    (marker_phase g pIdx src).firstPlayerToken
      = (if src = .center ∧ TColor.one ∈ g.center then pIdx
          else g.firstPlayerToken) := by
  cases src with
  | factory i => rw [if_neg (by rintro ⟨h, -⟩; cases h)]; rfl
  | center =>
      by_cases hm : TColor.one ∈ g.center
      · rw [if_pos ⟨rfl, hm⟩]
        simp [marker_phase, hm]
      · rw [if_neg (by rintro ⟨-, h⟩; exact hm h)]
        simp [marker_phase, hm]

/-- C4 (confirmed): `execute_move` with a color present in the source and a
floor or valid line behaves exactly as claimed — see `c4_conclusion` for
the statement: the color leaves the source entirely, a factory empties into
the center, taking from the center removes only that color plus (when
present) the marker, the marker goes to the acting player's floor line and
makes them the next first player, and the taken tiles fill the chosen
pattern line up to capacity with the overflow floored. -/
theorem c4_execute_move (g : Game) (pIdx : Nat) (src : SourceSel)
    (color : TColor) (line : Int) (hp : pIdx < g.players.length)
    (hcol : color ≠ .one) (hpres : color ∈ source_tiles g src)
    (hline : line = -1 ∨ (0 ≤ line ∧
      line.toNat ∈ get_valid_lines (g.players.getD pIdx emptyPlayer)
        color g.mode)) :
    c4_conclusion g pIdx src color line := by
  unfold c4_conclusion
  have hg2len : pIdx <
      (marker_phase (take_phase g src color) pIdx src).players.length := by
    rw [marker_phase_players_length, take_phase_players]
    exact hp
  have hpat2 : ((marker_phase (take_phase g src color) pIdx
        src).players.getD pIdx emptyPlayer).patternLines
      = (g.players.getD pIdx emptyPlayer).patternLines := by
    rw [marker_phase_getD_patternLines, take_phase_players]
  have hmk : (if src = .center ∧ TColor.one ∈ (take_phase g src
        color).center then [TColor.one] else [])
      = (if src = .center ∧ TColor.one ∈ g.center then [TColor.one]
          else []) := by
    cases src with
    | factory i =>
        rw [if_neg (by rintro ⟨h, -⟩; cases h),
          if_neg (by rintro ⟨h, -⟩; cases h)]
    | center =>
        by_cases hm : TColor.one ∈ g.center
        · rw [if_pos ⟨rfl, (one_mem_take_center g color hcol).2 hm⟩,
            if_pos ⟨rfl, hm⟩]
        · rw [if_neg (by
              rintro ⟨-, h⟩
              exact hm ((one_mem_take_center g color hcol).1 h)),
            if_neg (by rintro ⟨-, h⟩; exact hm h)]
  have hfloor2 : ((marker_phase (take_phase g src color) pIdx
        src).players.getD pIdx emptyPlayer).floorLine
      = (g.players.getD pIdx emptyPlayer).floorLine ++
        (if src = .center ∧ TColor.one ∈ g.center then [TColor.one]
          else []) := by
    rw [marker_phase_getD_floor (take_phase g src color) pIdx src
      (by rw [take_phase_players]; exact hp), hmk, take_phase_players]
  have hcen2 : src = .center →
      (marker_phase (take_phase g src color) pIdx src).center
        = (g.center.filter (fun t => !decide (t = color))).filter
            (fun t => !decide (t = .one)) := by
    rintro rfl
    by_cases hm : TColor.one ∈ (take_phase g .center color).center
    · simp only [marker_phase, if_pos hm]
      rfl
    · simp only [marker_phase, if_neg hm]
      exact (filter_not_one_of_not_mem _ hm).symm
  refine ⟨?_, ?_, ?_, ?_⟩
  · -- the chosen color is gone from the source
    cases src with
    | factory i =>
        have hi : i < g.factories.length := factory_lt_of_mem g i color hpres
        show color ∉ (execute_move g pIdx (.factory i) color
          line).factories.getD i []
        rw [execute_move_factories_factory, getD_set_self _ _ _ _ hi]
        exact List.not_mem_nil color
    | center =>
        show color ∉ (execute_move g pIdx .center color line).center
        have : (execute_move g pIdx .center color line).center
            = (g.center.filter (fun t => !decide (t = color))).filter
                (fun t => !decide (t = .one)) := by
          simp only [execute_move]
          rw [place_phase_center]
          exact hcen2 rfl
        rw [this]
        intro hmem
        have h1 := (List.mem_filter.1 hmem).1
        have h2 := (List.mem_filter.1 h1).2
        simp at h2
  · -- per-source bookkeeping
    cases src with
    | factory i =>
        have hi : i < g.factories.length := factory_lt_of_mem g i color hpres
        refine ⟨?_, ?_, ?_⟩
        · rw [execute_move_factories_factory, getD_set_self _ _ _ _ hi]
        · show (execute_move g pIdx (.factory i) color line).center = _
          simp only [execute_move]
          rw [place_phase_center]
          rfl
        · simp only [execute_move]
          rw [place_phase_token, marker_phase_token_eq,
            if_neg (by rintro ⟨h, -⟩; cases h), take_phase_token]
    | center =>
        refine ⟨?_, ?_, ?_⟩
        · simp only [execute_move]
          rw [place_phase_center]
          exact hcen2 rfl
        · intro hm
          simp only [execute_move]
          rw [place_phase_token, marker_phase_token_eq,
            if_pos ⟨rfl, (one_mem_take_center g color hcol).2 hm⟩]
        · intro hm
          simp only [execute_move]
          rw [place_phase_token, marker_phase_token_eq,
            if_neg (by
              rintro ⟨-, h⟩
              exact hm ((one_mem_take_center g color hcol).1 h)),
            take_phase_token]
  · -- floor placement
    rintro rfl
    simp only [execute_move]
    unfold place_phase
    rw [if_pos (show (-1 : Int) = -1 from rfl)]
    rw [modifyPlayer_getD_self _ pIdx _ hg2len]
    exact ⟨hpat2, by rw [hfloor2, List.append_assoc]⟩
  · -- pattern-line placement
    intro h0
    have hmem : line.toNat ∈ get_valid_lines
        (g.players.getD pIdx emptyPlayer) color g.mode := by
      rcases hline with h | ⟨-, hmem⟩
      · omega
      · exact hmem
    have hlen := valid_line_length_lt _ _ _ _ hmem
    have hne : line ≠ -1 := by omega
    have hsp : (0 : Int) ≤ (line.toNat : Int) + 1 -
        (((g.players.getD pIdx emptyPlayer).patternLines.getD line.toNat
          []).length : Int) := by omega
    have htn : (((line.toNat : Int) + 1 -
        (((g.players.getD pIdx emptyPlayer).patternLines.getD line.toNat
          []).length : Int))).toNat
        = line.toNat + 1 -
          ((g.players.getD pIdx emptyPlayer).patternLines.getD line.toNat
            []).length := by omega
    simp only [execute_move]
    unfold place_phase
    rw [if_neg hne]
    rw [modifyPlayer_getD_self _ pIdx _ hg2len]
    constructor
    · simp only [hpat2]
      rw [pyTake_of_nonneg _ hsp _, htn]
    · simp only [hfloor2, hpat2]
      rw [pyDrop_of_nonneg _ hsp _, htn, List.append_assoc]

/-- C4 witness: the conclusion evaluated on the concrete game `c4Game`
(factory 1 holds `W W B`, center holds the marker and an `R`), taking the
two `W` onto pattern line 0. -/
theorem c4_witness :
    (0 < c4Game.players.length ∧ TColor.W ≠ TColor.one ∧
      TColor.W ∈ source_tiles c4Game (.factory 0) ∧
      ((0 : Int)).toNat ∈ get_valid_lines
        (c4Game.players.getD 0 emptyPlayer) .W c4Game.mode) ∧
    c4_conclusion c4Game 0 (.factory 0) .W 0 :=
  ⟨⟨by decide, by decide, by decide, by decide⟩,
    c4_execute_move c4Game 0 (.factory 0) .W 0 (by decide) (by decide)
      (by decide) (Or.inr ⟨by decide, by decide⟩)⟩

theorem colors_of_eq_nil (l : List TColor) (h : ∀ t ∈ l, t = .one) :
    colors_of l = [] := by
  unfold colors_of uniqueFirst
  have hf : l.filter (fun t => !decide (t = .one)) = [] := by
    rw [List.filter_eq_nil_iff]
    intro a ha
    simp [h a ha]
  rw [hf]
  rfl

theorem sources_all_one (g : Game)
    (hfac : ∀ f ∈ g.factories, ∀ t ∈ f, t = .one)
    (hcen : ∀ t ∈ g.center, t = .one) :
    ∀ s, ∀ t ∈ source_tiles g s, t = .one := by
  intro s
  cases s with
  | center => exact hcen
  | factory i =>
      by_cases hi : i < g.factories.length
      · exact hfac _ (getD_mem _ _ _ hi)
      · intro t ht
        simp only [source_tiles] at ht
        rw [getD_out_of_range _ _ _ (by omega)] at ht
        exact absurd ht (List.not_mem_nil t)

theorem findSome?_eq_none_of {α β : Type} (l : List α) (f : α → Option β)
    (h : ∀ a ∈ l, f a = none) : l.findSome? f = none := by
  induction l with
  | nil => rfl
  | cons a t ih =>
      rw [List.findSome?_cons, h a (by simp)]
      exact ih (fun x hx => h x (by simp [hx]))

theorem flatMap_eq_nil_of {α β : Type} (l : List α) (f : α → List β)
    (h : ∀ a ∈ l, f a = []) : l.flatMap f = [] := by
  induction l with
  | nil => rfl
  | cons a t ih =>
      rw [List.flatMap_cons, h a (by simp),
        ih (fun x hx => h x (by simp [hx]))]
      rfl

theorem candidate_triples_nil (g : Game) (player : PlayerSt)
    (srcs : List SourceSel)
    (hsrc : ∀ s, ∀ t ∈ source_tiles g s, t = .one) :
    candidate_triples g srcs player = [] := by
  unfold candidate_triples
  exact flatMap_eq_nil_of _ _ (fun s hs => by
    rw [colors_of_eq_nil _ (hsrc s)]
    rfl)

theorem foldl_colors_nil {σ : Type} (g : Game)
    (hsrc : ∀ s, ∀ t ∈ source_tiles g s, t = .one)
    (inner : SourceSel → σ → TColor → σ) (l : List SourceSel) (acc : σ) :
    l.foldl (fun a s =>
      (colors_of (source_tiles g s)).foldl (inner s) a) acc = acc := by
  induction l generalizing acc with
  | nil => rfl
  | cons s t ih =>
      rw [List.foldl_cons, colors_of_eq_nil _ (hsrc s)]
      exact ih acc

theorem foldl_counts_nil {σ : Type} (g : Game)
    (hsrc : ∀ s, ∀ t ∈ source_tiles g s, t = .one)
    (inner : SourceSel → σ → TColor × Nat → σ) (l : List SourceSel)
    (acc : σ) :
    l.foldl (fun a s =>
      (color_counts (source_tiles g s)).foldl (inner s) a) acc = acc := by
  induction l generalizing acc with
  | nil => rfl
  | cons s t ih =>
      rw [List.foldl_cons]
      have hcc : color_counts (source_tiles g s) = [] := by
        unfold color_counts
        rw [colors_of_eq_nil _ (hsrc s)]
        rfl
      rw [hcc]
      exact ih acc

theorem find_least_negative_error (g : Game)
    (hsrc : ∀ s, ∀ t ∈ source_tiles g s, t = .one) :
    find_least_negative g = .error "No valid moves available" := by
  unfold find_least_negative
  rw [foldl_colors_nil g hsrc]

theorem find_least_overflow_none (g : Game) (player : PlayerSt)
    (hsrc : ∀ s, ∀ t ∈ source_tiles g s, t = .one) :
    find_least_overflow g player = none := by
  unfold find_least_overflow
  rw [candidate_triples_nil g player _ hsrc]
  rfl

/-- C5 (confirmed): when no factory and no center holds any non-marker
tile, every strategy — dummy, greedy, smart, strategic, and minmax for
either kind of opponent and any candidate evaluation — ends in
`find_least_negative`, which raises `RuntimeError("No valid moves
available")` instead of returning a move. -/
theorem c5_no_moves_error (g : Game) (b : Bool) (oracle : EMove → Int)
    (hfac : ∀ f ∈ g.factories, ∀ t ∈ f, t = .one)
    (hcen : ∀ t ∈ g.center, t = .one) :
    choose_move g "dummy" b oracle = .error "No valid moves available" ∧
    choose_move g "greedy" b oracle = .error "No valid moves available" ∧
    choose_move g "smart" b oracle = .error "No valid moves available" ∧
    choose_move g "strategic" b oracle
      = .error "No valid moves available" ∧
    choose_move g "minmax" b oracle = .error "No valid moves available" := by
  have hsrc := sources_all_one g hfac hcen
  have herr := find_least_negative_error g hsrc
  have hcand := candidate_triples_nil g
    (g.players.getD g.activePlayer emptyPlayer) (sources_all g) hsrc
  have hdummy : dummy_algorithm g = .error "No valid moves available" := by
    unfold dummy_algorithm
    dsimp only
    rw [findSome?_eq_none_of _ _ (fun s hs => by
      rw [colors_of_eq_nil _ (hsrc s)]
      rfl)]
    exact herr
  have hgreedy : greedy_algorithm g = .error "No valid moves available" := by
    unfold greedy_algorithm
    dsimp only
    rw [hcand]
    exact herr
  have hoverflow := find_least_overflow_none g
    (g.players.getD g.activePlayer emptyPlayer) hsrc
  have hsmart : smart_algorithm g = .error "No valid moves available" := by
    unfold smart_algorithm
    dsimp only
    rw [hcand, hoverflow]
    exact herr
  have hstrat : strategic_algorithm g
      = .error "No valid moves available" := by
    unfold strategic_algorithm
    dsimp only
    rw [hcand, hoverflow]
    exact herr
  have hmm : minmax_algorithm g b oracle
      = .error "No valid moves available" := by
    cases b with
    | false =>
        show strategic_algorithm g = _
        exact hstrat
    | true =>
        unfold minmax_algorithm
        dsimp only
        rw [if_neg (by simp)]
        by_cases hs : (sources_gated g).isEmpty
        · rw [if_pos hs]
          exact herr
        · rw [if_neg hs]
          unfold get_efficient_moves
          rw [foldl_counts_nil g hsrc]
          exact herr
  refine ⟨?_, ?_, ?_, ?_, ?_⟩
  · show dummy_algorithm g = _
    exact hdummy
  · show greedy_algorithm g = _
    exact hgreedy
  · show smart_algorithm g = _
    exact hsmart
  · show strategic_algorithm g = _
    exact hstrat
  · show minmax_algorithm g b oracle = _
    exact hmm

/-- C5 witness: the five strategies evaluated on the concrete empty-sources
game `c5Game` (five empty factories, a marker-only center). -/
theorem c5_witness :
    (∀ f ∈ c5Game.factories, ∀ t ∈ f, t = TColor.one) ∧
    (∀ t ∈ c5Game.center, t = TColor.one) ∧
    (choose_move c5Game "dummy" true (fun _ => 0)
        = .error "No valid moves available" ∧
      choose_move c5Game "greedy" true (fun _ => 0)
        = .error "No valid moves available" ∧
      choose_move c5Game "smart" true (fun _ => 0)
        = .error "No valid moves available" ∧
      choose_move c5Game "strategic" true (fun _ => 0)
        = .error "No valid moves available" ∧
      choose_move c5Game "minmax" true (fun _ => 0)
        = .error "No valid moves available") :=
  ⟨by decide, by decide,
    c5_no_moves_error c5Game true (fun _ => 0) (by decide) (by decide)⟩

theorem elo_expected_self (r : Real) : elo_expected r r = 1 / 2 := by
  unfold elo_expected
  rw [sub_self, zero_div, Real.rpow_zero]
  norm_num

/-- C8 (confirmed): for two strategies with equal ratings `r` and equal
positive K-factors `k`, `update_ratings` on a WIN moves the winner to
`r + k/2` and the loser to `r - k/2` — equal and opposite changes of
magnitude `k/2`, the winner strictly up and the loser strictly down,
since the expected score between equal ratings is `1/2`. -/
theorem c8_elo_equal_ratings (initial_k min_k k_decrease r k : Real)
    (g1 g2 : Nat) (hk : 0 < k) :
    ((update_ratings initial_k min_k k_decrease
        ⟨r, k, g1⟩ ⟨r, k, g2⟩ WIN).map
      (fun pq => (pq.1.rating, pq.2.rating)))
        = some (r + k / 2, r - k / 2) ∧
      r < r + k / 2 ∧ r - k / 2 < r := by
  refine ⟨?_, by linarith, by linarith⟩
  unfold update_ratings
  dsimp only
  rw [if_pos rfl]
  simp only [Option.map_some', Option.map_some, Option.some.injEq,
    Prod.mk.injEq]
  rw [elo_expected_self r]
  constructor <;> ring

/-- C8 witness: the theorem at ratings 1500 and K-factor 32 — the winner
moves to 1516 and the loser to 1484. -/
theorem c8_witness :
    (0 : Real) < 32 ∧
      (((update_ratings 32 10 1 ⟨1500, 32, 0⟩ ⟨1500, 32, 0⟩ WIN).map
        (fun pq => (pq.1.rating, pq.2.rating)))
          = some (1500 + 32 / 2, 1500 - 32 / 2) ∧
        (1500 : Real) < 1500 + 32 / 2 ∧
        (1500 : Real) - 32 / 2 < 1500) :=
  ⟨by norm_num, c8_elo_equal_ratings 32 10 1 1500 32 0 0 (by norm_num)⟩

/-- C9 (confirmed): whenever the variance reciprocal
`v_inv = g^2 E (1 - E)` computed by `_compute_new_rating` falls below the
tolerance `EPSILON`, the function short-circuits and returns the input
rating, deviation and volatility unchanged. -/
theorem c9_glicko_underflow_noop (tau rating rd vol opponentRating
    opponentRd score : Real)
    (h : glicko_v_inv rating opponentRating opponentRd < EPSILON) :
    compute_new_rating tau rating rd vol opponentRating opponentRd score
      = (rating, rd, vol) := by
  unfold compute_new_rating
  dsimp only
  rw [if_pos h]

theorem glicko_underflow_example :
    glicko_v_inv 1500 (1500 + 173.7178 * 2000000) 0 < EPSILON := by
  unfold glicko_v_inv EPSILON MU SCALE PI_SQUARED
  dsimp only
  have h1 : ((1500 : Real) - 1500) / 173.7178 = 0 := by norm_num
  have h2 : ((1500 + 173.7178 * 2000000 : Real) - 1500) / 173.7178
      = 2000000 := by
    rw [show (1500 + 173.7178 * 2000000 : Real) - 1500
        = 173.7178 * 2000000 from by ring]
    rw [mul_div_cancel_left₀ _ (by norm_num : (173.7178 : Real) ≠ 0)]
  have h3 : ((0 : Real)) / 173.7178 = 0 := zero_div _
  rw [h1, h2, h3]
  have h4 : (1 : Real) / Real.sqrt (1 + 3 * 0 * 0 / (Real.pi * Real.pi))
      = 1 := by
    norm_num [Real.sqrt_one]
  rw [h4]
  have h5 : -((1 : Real) * ((0 : Real) - 2000000)) = 2000000 := by ring
  rw [h5]
  have hexp : (2000001 : Real) ≤ Real.exp 2000000 := by
    have := Real.add_one_le_exp (2000000 : Real)
    linarith
  have hpos : (0 : Real) < 1 + Real.exp 2000000 := by positivity
  have hE : (1 : Real) / (1 + Real.exp 2000000) ≤ 1 / 2000002 := by
    rw [div_le_div_iff₀ hpos (by norm_num)]
    linarith
  have hE0 : (0 : Real) ≤ 1 / (1 + Real.exp 2000000) := by positivity
  calc 1 * 1 * (1 / (1 + Real.exp 2000000)) *
        (1 - 1 / (1 + Real.exp 2000000))
      = (1 / (1 + Real.exp 2000000)) *
          (1 - 1 / (1 + Real.exp 2000000)) := by ring
    _ ≤ (1 / (1 + Real.exp 2000000)) * 1 :=
        mul_le_mul_of_nonneg_left (by linarith) hE0
    _ = 1 / (1 + Real.exp 2000000) := mul_one _
    _ ≤ 1 / 2000002 := hE
    _ < 0.000001 := by norm_num

/-- C9 witness: the no-op theorem at a concrete update whose opponent is
two million internal-scale points stronger, which drives `v_inv` below the
tolerance. -/
theorem c9_witness :
    glicko_v_inv 1500 (1500 + 173.7178 * 2000000) 0 < EPSILON ∧
      compute_new_rating 0.5 1500 350 0.06 (1500 + 173.7178 * 2000000) 0 1
        = (1500, 350, 0.06) :=
  ⟨glicko_underflow_example,
    c9_glicko_underflow_noop 0.5 1500 350 0.06 _ 0 1
      glicko_underflow_example⟩

end Azul
